import Mathlib

/-!
Verification development for the moby layer store
(`daemon/internal/layer/layer_store.go`): a content-addressed,
reference-counted store of read-only filesystem layers plus named
read-write mount layers.

The embedding is arena-style: the Go pointer graph of `roLayer` nodes is
represented by an association list keyed by content-derived chain IDs
(the spec itself recommends "an arena of layer records addressed by
ChainID").  Stateful Go methods become pure functions threading an
explicit `layerStore` state; fallible collaborator calls (graph driver,
metadata store) are driven by explicit failure oracles so every error
path of the source is reachable in the model.
-/

set_option maxHeartbeats 1000000

namespace Moby

/-- Content-derived digests.  `diffD n` stands for the digest of a
decompressed tar stream with abstract content `n`; `chain p d` stands for
`digest(parentChainID ‖ diffID)` as computed by `identity.ChainID`.
Constructor injectivity models collision-freeness of the digest. -/
inductive Digest where
  | diffD : Nat → Digest
  | chain : Digest → Digest → Digest
deriving DecidableEq

/-- A chain digest is never equal to its own parent component. -/
theorem Digest.chain_ne_left (a b : Digest) : Digest.chain a b ≠ a := by
  intro h
  have hs := congrArg sizeOf h
  simp only [Digest.chain.sizeOf_spec] at hs
  omega

/-! ### Association-list primitives

`lookupA` returns the first binding of a key, `updateA` rewrites the
first binding, `eraseA` removes every binding of a key.  These model the
Go maps `layerMap` and `mounts` and the on-disk record directories. -/

def lookupA {κ α : Type} [DecidableEq κ] : List (κ × α) → κ → Option α
  | [], _ => none
  | (k, v) :: t, k0 => if k = k0 then some v else lookupA t k0

def updateA {κ α : Type} [DecidableEq κ] : List (κ × α) → κ → α → List (κ × α)
  | [], _, _ => []
  | (k, v) :: t, k0, v0 => if k = k0 then (k0, v0) :: t else (k, v) :: updateA t k0 v0

def eraseA {κ α : Type} [DecidableEq κ] (m : List (κ × α)) (k0 : κ) : List (κ × α) :=
  m.filter fun p => p.1 ≠ k0

/-! ### Data model -/

/-- Read-only layer node (source struct `roLayer`).  The Go `parent`
pointer is the optional chain ID of the parent node in the arena;
`references` holds the IDs of live external `Layer` handles. -/
structure roLayer where
  chainID : Digest
  diffID : Digest
  size : Int
  cacheID : Nat
  parent : Option Digest
  referenceCount : Nat
  references : List Nat
deriving DecidableEq

/-- Mounted read-write layer (source struct `mountedLayer`). -/
structure mountedLayer where
  name : String
  mountID : Nat
  initID : Option Nat
  parent : Option Digest
  references : List Nat
deriving DecidableEq

/-- Persisted per-chain-ID metadata record (diff ID, size, cache ID,
parent link) written atomically by a committed transaction. -/
structure LayerRecord where
  diffID : Digest
  size : Int
  cacheID : Nat
  parent : Option Digest
deriving DecidableEq

/-- Persisted per-mount-name record.  Fields are optional because the
metadata store writes them by separate `SetMountID`, `SetInitID`,
`SetMountParent` calls. -/
structure MountRecord where
  mountID : Option Nat
  initID : Option Nat
  parent : Option Digest
deriving DecidableEq

/-- Accounting record returned for each physically deleted layer
(source struct `Metadata`). -/
structure Metadata where
  chainID : Digest
  diffID : Digest
  size : Int
  diffSize : Int
deriving DecidableEq

/-- External read-only layer handle (source `referencedCacheLayer`):
remembers the chain ID of the node it was taken on plus a unique ID
standing for the Go object identity used by the reference set. -/
structure Layer where
  chainID : Digest
  refID : Nat
deriving DecidableEq

/-- External read-write layer handle (source `referencedRWLayer`). -/
structure RWLayer where
  name : String
  refID : Nat
deriving DecidableEq

/-- The layer store state: both in-memory indices, the persisted
records, the set of backing stores existing in the graph driver, and a
counter supplying fresh IDs (random cache IDs, handle identities). -/
structure layerStore where
  layerMap : List (Digest × roLayer)
  mounts : List (String × mountedLayer)
  metaRecords : List (Digest × LayerRecord)
  mountRecords : List (String × MountRecord)
  driverStores : List Nat
  nextID : Nat
deriving DecidableEq

/-- Errors and fatal assertion failures of the store.  Constructors
named `Err…` correspond to the exported error values of the source;
`panicNotRetained`, `panicDeleteReferenced` and `panicRemoveWithChild`
model the three `panic` calls in `releaseLayer`; the remaining
constructors stand for propagated graph-driver/metadata failures.
`outOfFuel` and `danglingParent` are artifacts of the arena embedding
and are unreachable in coherent states. -/
inductive LayerErr where
  | ErrLayerDoesNotExist
  | ErrMaxDepthExceeded
  | ErrLayerNotRetained
  | ErrMountNameConflict
  | ErrMountDoesNotExist
  | driverCreateFailed
  | txStartFailed
  | applyFailed
  | storeFailed
  | commitFailed
  | driverRemoveFailed (id : Nat)
  | removeMountFailed
  | initCreateFailed
  | initGetFailed
  | initFnFailed
  | initPutFailed
  | rwCreateFailed
  | setMountIDFailed
  | setInitIDFailed
  | setParentFailed
  | panicNotRetained
  | panicDeleteReferenced
  | panicRemoveWithChild
  | outOfFuel
  | danglingParent
deriving DecidableEq

/-- Maximum number of layers which can be chained together (source
constant `maxLayerDepth`). -/
def maxLayerDepth : Nat := 125

/-! ### roLayer helpers

Modelled from the spec: the `roLayer` method set (`ro_layer.go`) is not
part of the provided sources; the spec describes `references` as the
"set of live external handle objects" and depth as the "root-to-node
parent-chain length". -/

/-- Modelled from the spec: `roLayer.hasReferences` — whether any live
external handle is registered on this node. -/
def roLayer.hasReferences (l : roLayer) : Bool :=
  !l.references.isEmpty

/-- Modelled from the spec: `roLayer.hasReference` — whether this
particular handle is registered on this node. -/
def roLayer.hasReference (l : roLayer) (ref : Nat) : Bool :=
  l.references.contains ref

/-- Modelled from the spec: `roLayer.deleteReference` removes a handle
from the node's reference set. -/
def roLayer.deleteReference (l : roLayer) (ref : Nat) : roLayer :=
  { l with references := l.references.erase ref }

/-- Modelled from the spec: `roLayer.depth`, the root-to-node
parent-chain length (a root layer has depth 1), walking parent links
through the arena.  Fuel bounds the walk; any map-sized fuel is enough
on acyclic chains. -/
def depthGo (m : List (Digest × roLayer)) : Nat → roLayer → Nat
  | 0, _ => 0
  | fuel + 1, l =>
    match l.parent with
    | none => 1
    | some pc =>
      match lookupA m pc with
      | none => 1
      | some p => depthGo m fuel p + 1

/-- Modelled from the spec: `roLayer.Size`, the cumulative size computed
by walking parents and summing each layer's own diff size. -/
def sizeGo (m : List (Digest × roLayer)) : Nat → roLayer → Int
  | 0, _ => 0
  | fuel + 1, l =>
    (match l.parent with
     | none => 0
     | some pc =>
       match lookupA m pc with
       | none => 0
       | some p => sizeGo m fuel p) + l.size

/-- Modelled from the spec: `roLayer.getReference` registers a fresh
external handle object in the node's reference set and returns it.  The
fresh handle identity is drawn from the store's ID counter. -/
def getReferenceRO (ls : layerStore) (key : Digest) : Layer × layerStore :=
  match lookupA ls.layerMap key with
  | none => (⟨key, ls.nextID⟩, { ls with nextID := ls.nextID + 1 })
  | some l =>
    (⟨l.chainID, ls.nextID⟩,
      { ls with
        layerMap := updateA ls.layerMap key { l with references := l.references ++ [ls.nextID] }
        nextID := ls.nextID + 1 })

/-! ### mountedLayer helpers

Modelled from the spec: the `mountedLayer` method set
(`mounted_layer.go`) is not part of the provided sources. -/

/-- Modelled from the spec: `mountedLayer.hasReferences`. -/
def mountedLayer.hasReferences (m : mountedLayer) : Bool :=
  !m.references.isEmpty

/-- Modelled from the spec: `mountedLayer.deleteReference` fails with
`ErrLayerNotRetained` when the handle is not actually held. -/
def mountedLayer.deleteReference (m : mountedLayer) (ref : Nat) : Except LayerErr mountedLayer :=
  if m.references.contains ref then
    .ok { m with references := m.references.erase ref }
  else
    .error .ErrLayerNotRetained

/-- Modelled from the spec: `mountedLayer.retakeReference` reinserts a
just-deleted handle so a failed release is retryable. -/
def mountedLayer.retakeReference (m : mountedLayer) (ref : Nat) : mountedLayer :=
  { m with references := ref :: m.references }

/-- Modelled from the spec: `mountedLayer.getReference` registers a
fresh external `RWLayer` handle on the mount. -/
def getReferenceRW (ls : layerStore) (name : String) : RWLayer × layerStore :=
  match lookupA ls.mounts name with
  | none => (⟨name, ls.nextID⟩, { ls with nextID := ls.nextID + 1 })
  | some m =>
    (⟨name, ls.nextID⟩,
      { ls with
        mounts := updateA ls.mounts name { m with references := m.references ++ [ls.nextID] }
        nextID := ls.nextID + 1 })

/-! ### get / Get -/

/-- Source `layerStore.get`: arena lookup which increments the node's
reference count when found. -/
def layerStore.get (ls : layerStore) (c : Digest) : Option roLayer × layerStore :=
  match lookupA ls.layerMap c with
  | none => (none, ls)
  | some l =>
    let l1 := { l with referenceCount := l.referenceCount + 1 }
    (some l1, { ls with layerMap := updateA ls.layerMap c l1 })

/-- Source `layerStore.Get`: public lookup returning a fresh handle, or
`ErrLayerDoesNotExist`. -/
def layerStore.GetLayer (ls : layerStore) (c : Digest) : Except LayerErr Layer × layerStore :=
  match ls.get c with
  | (none, ls1) => (.error .ErrLayerDoesNotExist, ls1)
  | (some _, ls1) =>
    let hs := getReferenceRO ls1 c
    (.ok hs.1, hs.2)

/-! ### deletion and the release cascade -/

/-- Source `layerStore.deleteLayer`: rename the metadata directory to a
"-removing" sentinel (after which the record is no longer reachable
under its chain ID), remove the graph-driver backing store, remove the
renamed directory, and fill the accounting record.  `dFail` is the set
of cache IDs whose `driver.Remove` fails. -/
def deleteLayer (dFail : List Nat) (ls : layerStore) (l : roLayer) :
    Except LayerErr Metadata × layerStore :=
  let ls1 := { ls with metaRecords := eraseA ls.metaRecords l.chainID }
  if l.cacheID ∈ dFail then
    (.error (.driverRemoveFailed l.cacheID), ls1)
  else
    let ls2 := { ls1 with driverStores := ls1.driverStores.filter (· ≠ l.cacheID) }
    (.ok
      { chainID := l.chainID
        diffID := l.diffID
        size := sizeGo ls2.layerMap (ls2.layerMap.length + 1) l
        diffSize := l.size }, ls2)

/-- Source `layerStore.releaseLayer` loop body: decrement the node's
count; stop while it stays positive; otherwise assert the reference-
counting invariants (fatal `panic` on violation), delete the node and
walk up to the parent, accumulating one `Metadata` record per deleted
node.  The node is addressed by chain ID in the arena; fuel any larger
than the map is enough because every continuing iteration deletes one
node from the map. -/
def releaseLayerGo (dFail : List Nat) :
    Nat → layerStore → Digest → Nat → List Metadata →
    Except LayerErr (List Metadata) × layerStore
  | 0, ls, _, _, _ => (.error .outOfFuel, ls)
  | fuel + 1, ls, c, depth, removed =>
    match lookupA ls.layerMap c with
    | none => (.error .danglingParent, ls)
    | some l =>
      if l.referenceCount = 0 then
        (.error .panicNotRetained, ls)
      else
        let l1 := { l with referenceCount := l.referenceCount - 1 }
        let ls1 := { ls with layerMap := updateA ls.layerMap c l1 }
        if l1.referenceCount ≠ 0 then
          (.ok removed, ls1)
        else if removed.isEmpty && decide (0 < depth) then
          (.error .panicRemoveWithChild, ls1)
        else if l1.hasReferences then
          (.error .panicDeleteReferenced, ls1)
        else
          let ls2 := { ls1 with layerMap := eraseA ls1.layerMap c }
          match deleteLayer dFail ls2 l1 with
          | (.error e, ls3) => (.error e, ls3)
          | (.ok md, ls3) =>
            match l1.parent with
            | none => (.ok (removed ++ [md]), ls3)
            | some pc => releaseLayerGo dFail fuel ls3 pc (depth + 1) (removed ++ [md])

/-- Source `layerStore.releaseLayer` entry point. -/
def releaseLayer (dFail : List Nat) (ls : layerStore) (c : Digest) :
    Except LayerErr (List Metadata) × layerStore :=
  releaseLayerGo dFail (ls.layerMap.length + 1) ls c 0 []

/-- Source `layerStore.Release`: a handle whose chain ID is absent from
the index is a silent no-op; a handle not registered on its node is
`ErrLayerNotRetained`; otherwise the handle is removed from the
reference set and the release cascade runs. -/
def layerStore.Release (dFail : List Nat) (ls : layerStore) (l : Layer) :
    Except LayerErr (List Metadata) × layerStore :=
  match lookupA ls.layerMap l.chainID with
  | none => (.ok [], ls)
  | some node =>
    if node.hasReference l.refID then
      let node1 := node.deleteReference l.refID
      let ls1 := { ls with layerMap := updateA ls.layerMap l.chainID node1 }
      releaseLayer dFail ls1 l.chainID
    else
      (.error .ErrLayerNotRetained, ls)

/-! ### Register -/

/-- Abstract tar diff stream: `content` determines the digest of the
decompressed bytes, `size` the applied size reported by the graph
driver. -/
structure DiffStream where
  content : Nat
  size : Int
deriving DecidableEq

/-- Failure oracle for the fallible collaborator steps of
`registerWithDescriptor`: graph-driver `Create`, metadata
`StartTransaction`, `ApplyDiff`, `storeLayer` and `tx.Commit`. -/
structure RegFail where
  createFail : Bool
  txFail : Bool
  applyFail : Bool
  storeFail : Bool
  commitFail : Bool
deriving DecidableEq

/-- The all-success oracle. -/
def regOK : RegFail := ⟨false, false, false, false, false⟩

/-- Deferred cleanup of `registerWithDescriptor`: remove the just-created
graph-driver store and cancel the metadata transaction (the transaction
buffered its writes, so cancelling leaves the records untouched). -/
def cleanupStore (ls : layerStore) (cacheID : Nat) : layerStore :=
  { ls with driverStores := ls.driverStores.filter (· ≠ cacheID) }

/-- Core of source `layerStore.registerWithDescriptor`, run after the
parent has been resolved and depth-checked: create the backing store
under a fresh random cache ID, open a transaction, apply the tar diff,
compute the chain ID, and either return a handle to an already existing
node (deduplication) or commit and insert the new node.  The returned
flag reports whether `cErr` was set, i.e. whether the caller's deferred
parent release must run. -/
def registerCore (ls1 : layerStore) (ts : DiffStream) (pinfo : Option (Digest × Nat))
    (f : RegFail) : (Except LayerErr Layer × layerStore) × Bool :=
  let cacheID := ls1.nextID
  let ls2 := { ls1 with nextID := ls1.nextID + 1 }
  if f.createFail then
    ((.error .driverCreateFailed, ls2), true)
  else
    let ls3 := { ls2 with driverStores := cacheID :: ls2.driverStores }
    if f.txFail then
      -- StartTransaction fails before the driver/transaction cleanup is
      -- deferred: the created backing store is left behind.
      ((.error .txStartFailed, ls3), true)
    else if f.applyFail then
      ((.error .applyFailed, cleanupStore ls3 cacheID), true)
    else
      let diffID := Digest.diffD ts.content
      let chainID :=
        match pinfo with
        | none => diffID
        | some pi => Digest.chain pi.1 diffID
      if f.storeFail then
        ((.error .storeFailed, cleanupStore ls3 cacheID), true)
      else
        match lookupA ls3.layerMap chainID with
        | some _ =>
          -- Deduplication: take a reference on the existing node, set
          -- cErr so the deferred cleanup discards the new store and
          -- transaction, but return success.
          let g := ls3.get chainID
          let hs := getReferenceRO g.2 chainID
          ((.ok hs.1, cleanupStore hs.2 cacheID), true)
        | none =>
          if f.commitFail then
            ((.error .commitFailed, cleanupStore ls3 cacheID), true)
          else
            let layer : roLayer :=
              { chainID := chainID
                diffID := diffID
                size := ts.size
                cacheID := cacheID
                parent := pinfo.map Prod.fst
                referenceCount := 1
                references := [] }
            let ls4 :=
              { ls3 with
                metaRecords :=
                  (chainID, ⟨diffID, ts.size, cacheID, pinfo.map Prod.fst⟩) :: ls3.metaRecords
                layerMap := (chainID, layer) :: ls3.layerMap }
            let hs := getReferenceRO ls4 chainID
            ((.ok hs.1, hs.2), false)

/-- Source `layerStore.registerWithDescriptor`: resolve the parent
(taking a reference on it), enforce the depth bound, then run the core;
whenever `cErr` was set the parent's just-taken reference is released
(deferred closure). -/
def layerStore.registerWithDescriptor (ls0 : layerStore) (ts : DiffStream)
    (parent : Option Digest) (f : RegFail) : Except LayerErr Layer × layerStore :=
  match parent with
  | none => (registerCore ls0 ts none f).1
  | some pc =>
    match ls0.get pc with
    | (none, _) => (.error .ErrLayerDoesNotExist, ls0)
    | (some p, ls1) =>
      if maxLayerDepth ≤ depthGo ls1.layerMap (ls1.layerMap.length + 1) p then
        (.error .ErrMaxDepthExceeded, (releaseLayer [] ls1 pc).2)
      else
        match registerCore ls1 ts (some (pc, p.cacheID)) f with
        | (r, true) => (r.1, (releaseLayer [] r.2 pc).2)
        | (r, false) => r

/-- Source `layerStore.Register`. -/
def layerStore.Register (ls : layerStore) (ts : DiffStream) (parent : Option Digest)
    (f : RegFail) : Except LayerErr Layer × layerStore :=
  ls.registerWithDescriptor ts parent f

/-! ### CreateRWLayer / ReleaseRWLayer -/

/-- Failure oracle for the fallible steps of `CreateRWLayer`: the init
layer's `CreateReadWrite`/`Get`/initFunc/`Put`, the writable layer's
`CreateReadWrite`, and the three metadata setters of `saveMount`. -/
structure RWFail where
  initCreateFail : Bool
  initGetFail : Bool
  initFnFail : Bool
  initPutFail : Bool
  rwCreateFail : Bool
  setMountIDFail : Bool
  setInitIDFail : Bool
  setParentFail : Bool
deriving DecidableEq

/-- The all-success oracle. -/
def rwOK : RWFail := ⟨false, false, false, false, false, false, false, false⟩

/-- Modelled from the spec: the metadata store's mount-record setters
write individual fields of the per-name record. -/
def setMountRecord (mrecs : List (String × MountRecord)) (name : String)
    (f : MountRecord → MountRecord) : List (String × MountRecord) :=
  match lookupA mrecs name with
  | some r => updateA mrecs name (f r)
  | none => (name, f ⟨none, none, none⟩) :: mrecs

/-- Tail of source `layerStore.CreateRWLayer` after the optional init
mount: create the writable backing store, persist the mount record
(`saveMount`), insert into the mounts index and return a fresh handle. -/
def finishRW (ls : layerStore) (name : String) (pinfo : Option (Digest × Nat))
    (mountID : Nat) (initID : Option Nat) (f : RWFail) :
    Except LayerErr RWLayer × layerStore :=
  if f.rwCreateFail then
    (.error .rwCreateFailed, ls)
  else
    let ls1 := { ls with driverStores := mountID :: ls.driverStores }
    if f.setMountIDFail then
      (.error .setMountIDFailed, ls1)
    else
      let ls2 := { ls1 with mountRecords := setMountRecord ls1.mountRecords name (fun r => { r with mountID := some mountID }) }
      if initID.isSome && f.setInitIDFail then
        (.error .setInitIDFailed, ls2)
      else
        let ls3 :=
          match initID with
          | none => ls2
          | some iid => { ls2 with mountRecords := setMountRecord ls2.mountRecords name (fun r => { r with initID := some iid }) }
        if pinfo.isSome && f.setParentFail then
          (.error .setParentFailed, ls3)
        else
          let ls4 :=
            match pinfo with
            | none => ls3
            | some pi => { ls3 with mountRecords := setMountRecord ls3.mountRecords name (fun r => { r with parent := some pi.1 }) }
          let m : mountedLayer :=
            { name := name
              mountID := mountID
              initID := initID
              parent := pinfo.map Prod.fst
              references := [] }
          let ls5 := { ls4 with mounts := (name, m) :: ls4.mounts }
          let hs := getReferenceRW ls5 name
          (.ok hs.1, hs.2)

/-- Core of source `layerStore.CreateRWLayer` after the name-collision
check and parent resolution: allocate the mount ID, run `initMount` when
an init function is supplied (the init backing store, once created, is
not removed on later failures), then `finishRW`.  In the source the init
layer is named `mountID + "-init"` for graph-driver compatibility; IDs
being opaque here, a fresh ID is drawn instead. -/
def createRWCore (ls1 : layerStore) (name : String) (pinfo : Option (Digest × Nat))
    (withInit : Bool) (f : RWFail) : Except LayerErr RWLayer × layerStore :=
  let mountID := ls1.nextID
  let ls2 := { ls1 with nextID := ls1.nextID + 1 }
  if withInit then
    let initID := ls2.nextID
    let ls3 := { ls2 with nextID := ls2.nextID + 1 }
    if f.initCreateFail then
      (.error .initCreateFailed, ls3)
    else
      let ls4 := { ls3 with driverStores := initID :: ls3.driverStores }
      if f.initGetFail then
        (.error .initGetFailed, ls4)
      else if f.initFnFail then
        (.error .initFnFailed, ls4)
      else if f.initPutFail then
        (.error .initPutFailed, ls4)
      else
        finishRW ls4 name pinfo mountID (some initID) f
  else
    finishRW ls2 name pinfo mountID none f

/-- Source `layerStore.CreateRWLayer`: name-locked; fail
`ErrMountNameConflict` on a mounts-index collision; resolve the parent
(taking a reference released again on any later failure); create the
mount. -/
def layerStore.CreateRWLayer (ls0 : layerStore) (name : String) (parent : Option Digest)
    (withInit : Bool) (f : RWFail) : Except LayerErr RWLayer × layerStore :=
  match lookupA ls0.mounts name with
  | some _ => (.error .ErrMountNameConflict, ls0)
  | none =>
    match parent with
    | none => createRWCore ls0 name none withInit f
    | some pc =>
      match ls0.get pc with
      | (none, _) => (.error .ErrLayerDoesNotExist, ls0)
      | (some p, ls1) =>
        match createRWCore ls1 name (some (pc, p.cacheID)) withInit f with
        | (.error e, ls2) => (.error e, (releaseLayer [] ls2 pc).2)
        | r => r

/-- Source `layerStore.ReleaseRWLayer`: a name absent from the mounts
index is a silent no-op; otherwise drop the handle (`ErrLayerNotRetained`
if not held), stop while other references remain, then remove the
writable store, the init store if present, the mount record and the
index entry, finally releasing the parent read-only chain.  If a removal
step fails the handle reference is retaken and the error returned.
`dFail` lists graph-driver IDs whose `Remove` fails; `removeMountFail`
makes the metadata `RemoveMount` fail. -/
def layerStore.ReleaseRWLayer (dFail : List Nat) (removeMountFail : Bool)
    (ls0 : layerStore) (l : RWLayer) : Except LayerErr (List Metadata) × layerStore :=
  match lookupA ls0.mounts l.name with
  | none => (.ok [], ls0)
  | some m =>
    match m.deleteReference l.refID with
    | .error e => (.error e, ls0)
    | .ok m1 =>
      let ls1 := { ls0 with mounts := updateA ls0.mounts l.name m1 }
      if m1.hasReferences then
        (.ok [], ls1)
      else if m1.mountID ∈ dFail then
        (.error (.driverRemoveFailed m1.mountID),
          { ls1 with mounts := updateA ls1.mounts l.name (m1.retakeReference l.refID) })
      else
        let ls2 := { ls1 with driverStores := ls1.driverStores.filter (· ≠ m1.mountID) }
        if m1.initID.isSome ∧ m1.initID.get! ∈ dFail then
          (.error (.driverRemoveFailed m1.initID.get!),
            { ls2 with mounts := updateA ls2.mounts l.name (m1.retakeReference l.refID) })
        else
          let ls3 :=
            match m1.initID with
            | none => ls2
            | some iid => { ls2 with driverStores := ls2.driverStores.filter (· ≠ iid) }
          if removeMountFail then
            (.error .removeMountFailed,
              { ls3 with mounts := updateA ls3.mounts l.name (m1.retakeReference l.refID) })
          else
            let ls4 := { ls3 with mountRecords := eraseA ls3.mountRecords l.name }
            let ls5 := { ls4 with mounts := eraseA ls4.mounts l.name }
            match m1.parent with
            | none => (.ok [], ls5)
            | some pc => releaseLayer dFail ls5 pc

/-! ### store construction from persisted records -/

/-- Source `layerStore.loadLayer`: memoized recursive load of one
persisted layer record, resolving the parent first.  On failure the
already-inserted ancestors stay in the map, exactly as in the source
where `ls.layerMap` is mutated in place.  Fuel bounds the parent
recursion; `records.length + 1` is enough on acyclic records. -/
def loadLayerGo (recs : List (Digest × LayerRecord)) :
    Nat → List (Digest × roLayer) → Digest → Option roLayer × List (Digest × roLayer)
  | 0, m, _ => (none, m)
  | fuel + 1, m, c =>
    match lookupA m c with
    | some cl => (some cl, m)
    | none =>
      match lookupA recs c with
      | none => (none, m)
      | some r =>
        match r.parent with
        | none =>
          let cl : roLayer :=
            { chainID := c, diffID := r.diffID, size := r.size, cacheID := r.cacheID
              parent := none, referenceCount := 0, references := [] }
          (some cl, (c, cl) :: m)
        | some pc =>
          match loadLayerGo recs fuel m pc with
          | (none, m1) => (none, m1)
          | (some _, m1) =>
            let cl : roLayer :=
              { chainID := c, diffID := r.diffID, size := r.size, cacheID := r.cacheID
                parent := some pc, referenceCount := 0, references := [] }
            (some cl, (c, cl) :: m1)

/-- The layer-loading loop of source `newStoreFromGraphDriver`: load
every listed chain ID (failures logged and skipped), incrementing the
parent's reference count once per successfully loaded child. -/
def loadAllLayers (recs : List (Digest × LayerRecord)) :
    List Digest → List (Digest × roLayer) → List (Digest × roLayer)
  | [], m => m
  | id :: rest, m =>
    let r := loadLayerGo recs (recs.length + 1) m id
    let m2 :=
      match r.1 with
      | none => r.2
      | some l =>
        match l.parent with
        | none => r.2
        | some pc =>
          match lookupA r.2 pc with
          | none => r.2
          | some p => updateA r.2 pc { p with referenceCount := p.referenceCount + 1 }
    loadAllLayers recs rest m2

/-- Source `layerStore.loadMount`: load one persisted mount record,
resolving and reference-counting its parent chain.  A missing mount ID
is the modelled `GetMountID` failure (logged and skipped by the
caller). -/
def loadMount (recs : List (Digest × LayerRecord)) (mrecs : List (String × MountRecord))
    (m : List (Digest × roLayer)) (mounts : List (String × mountedLayer)) (name : String) :
    List (Digest × roLayer) × List (String × mountedLayer) :=
  match lookupA mounts name with
  | some _ => (m, mounts)
  | none =>
    match lookupA mrecs name with
    | none => (m, mounts)
    | some r =>
      match r.mountID with
      | none => (m, mounts)
      | some mid =>
        match r.parent with
        | none =>
          let ml : mountedLayer :=
            { name := name, mountID := mid, initID := r.initID, parent := none, references := [] }
          (m, (name, ml) :: mounts)
        | some pc =>
          match loadLayerGo recs (recs.length + 1) m pc with
          | (none, m1) => (m1, mounts)
          | (some p, m1) =>
            let m2 := updateA m1 pc { p with referenceCount := p.referenceCount + 1 }
            let ml : mountedLayer :=
              { name := name, mountID := mid, initID := r.initID, parent := some pc, references := [] }
            (m2, (name, ml) :: mounts)

/-- The mount-loading loop of source `newStoreFromGraphDriver`. -/
def loadAllMounts (recs : List (Digest × LayerRecord)) (mrecs : List (String × MountRecord)) :
    List String → List (Digest × roLayer) → List (String × mountedLayer) →
    List (Digest × roLayer) × List (String × mountedLayer)
  | [], m, mounts => (m, mounts)
  | name :: rest, m, mounts =>
    let r := loadMount recs mrecs m mounts name
    loadAllMounts recs mrecs rest r.1 r.2

/-- Source `newStoreFromGraphDriver`: build the store from the persisted
records, deriving every reference count purely from parent links (counts
themselves are never persisted).  `ms.List()` yields the chain IDs and
mount names of the records on disk. -/
def newStoreFromGraphDriver (recs : List (Digest × LayerRecord))
    (mrecs : List (String × MountRecord)) (driverStores : List Nat) (nextID : Nat) :
    layerStore :=
  let m := loadAllLayers recs (recs.map Prod.fst) []
  let r := loadAllMounts recs mrecs (mrecs.map Prod.fst) m []
  { layerMap := r.1
    mounts := r.2
    metaRecords := recs
    mountRecords := mrecs
    driverStores := driverStores
    nextID := nextID }

/-! ### Association-list lemmas -/

theorem lookupA_cons_self {κ α : Type} [DecidableEq κ] (k : κ) (v : α) (t : List (κ × α)) :
    lookupA ((k, v) :: t) k = some v := by
  simp [lookupA]

theorem lookupA_updateA_self {κ α : Type} [DecidableEq κ] (m : List (κ × α)) (k : κ)
    (v w : α) (h : lookupA m k = some v) : lookupA (updateA m k w) k = some w := by
  induction m with
  | nil => simp [lookupA] at h
  | cons p t ih =>
    obtain ⟨pk, pv⟩ := p
    by_cases hk : pk = k
    · subst hk
      simp [lookupA, updateA]
    · simp [lookupA, updateA, hk] at h ⊢
      exact ih h

theorem lookupA_updateA_ne {κ α : Type} [DecidableEq κ] (m : List (κ × α)) (k k1 : κ)
    (w : α) (h : k1 ≠ k) : lookupA (updateA m k w) k1 = lookupA m k1 := by
  induction m with
  | nil => simp [updateA]
  | cons p t ih =>
    obtain ⟨pk, pv⟩ := p
    by_cases hk : pk = k
    · subst hk
      simp [lookupA, updateA, Ne.symm h]
    · simp [lookupA, updateA, hk]
      split
      · rfl
      · exact ih

theorem updateA_updateA {κ α : Type} [DecidableEq κ] (m : List (κ × α)) (k : κ)
    (v w : α) : updateA (updateA m k v) k w = updateA m k w := by
  induction m with
  | nil => simp [updateA]
  | cons p t ih =>
    obtain ⟨pk, pv⟩ := p
    by_cases hk : pk = k
    · subst hk
      simp [updateA]
    · simp [updateA, hk, ih]

theorem updateA_id {κ α : Type} [DecidableEq κ] (m : List (κ × α)) (k : κ) (v : α)
    (h : lookupA m k = some v) : updateA m k v = m := by
  induction m with
  | nil => simp [updateA]
  | cons p t ih =>
    obtain ⟨pk, pv⟩ := p
    by_cases hk : pk = k
    · subst hk
      simp [lookupA] at h
      simp [updateA, h]
    · simp [lookupA, hk] at h
      simp [updateA, hk, ih h]

theorem updateA_of_lookup_none {κ α : Type} [DecidableEq κ] (m : List (κ × α)) (k : κ)
    (v : α) (h : lookupA m k = none) : updateA m k v = m := by
  induction m with
  | nil => simp [updateA]
  | cons p t ih =>
    obtain ⟨pk, pv⟩ := p
    by_cases hk : pk = k
    · subst hk
      simp [lookupA] at h
    · simp [lookupA, hk] at h
      simp [updateA, hk, ih h]

theorem lookupA_eraseA {κ α : Type} [DecidableEq κ] (m : List (κ × α)) (k k1 : κ) :
    lookupA (eraseA m k) k1 = if k1 = k then none else lookupA m k1 := by
  induction m with
  | nil => simp [eraseA, lookupA]
  | cons p t ih =>
    obtain ⟨pk, pv⟩ := p
    by_cases hk : pk = k
    · subst hk
      have he : eraseA ((pk, pv) :: t) pk = eraseA t pk := by simp [eraseA]
      rw [he, ih]
      by_cases hk1 : k1 = pk
      · simp [hk1]
      · simp [hk1, lookupA, Ne.symm hk1]
    · have he : eraseA ((pk, pv) :: t) k = (pk, pv) :: eraseA t k := by simp [eraseA, hk]
      rw [he]
      by_cases hpk1 : pk = k1
      · subst hpk1
        simp [lookupA, hk]
      · simp [lookupA, hpk1, ih]

theorem eraseA_updateA {κ α : Type} [DecidableEq κ] (m : List (κ × α)) (k : κ) (v : α) :
    eraseA (updateA m k v) k = eraseA m k := by
  induction m with
  | nil => simp [updateA]
  | cons p t ih =>
    obtain ⟨pk, pv⟩ := p
    by_cases hk : pk = k
    · subst hk
      simp [updateA, eraseA, List.filter]
    · simp [updateA, eraseA, List.filter, hk] at ih ⊢
      exact ih

theorem eraseA_of_lookup_none {κ α : Type} [DecidableEq κ] (m : List (κ × α)) (k : κ)
    (h : lookupA m k = none) : eraseA m k = m := by
  induction m with
  | nil => simp [eraseA]
  | cons p t ih =>
    obtain ⟨pk, pv⟩ := p
    by_cases hk : pk = k
    · subst hk
      simp [lookupA] at h
    · simp [lookupA, hk] at h
      simp [eraseA, List.filter, hk] at ih ⊢
      exact ih h

theorem length_updateA {κ α : Type} [DecidableEq κ] (m : List (κ × α)) (k : κ) (v : α) :
    (updateA m k v).length = m.length := by
  induction m with
  | nil => simp [updateA]
  | cons p t ih =>
    obtain ⟨pk, pv⟩ := p
    by_cases hk : pk = k <;> simp [updateA, hk, ih]

theorem length_eraseA_le {κ α : Type} [DecidableEq κ] (m : List (κ × α)) (k : κ) :
    (eraseA m k).length ≤ m.length :=
  List.length_filter_le _ _

theorem length_eraseA_lt {κ α : Type} [DecidableEq κ] (m : List (κ × α)) (k : κ) (v : α)
    (h : lookupA m k = some v) : (eraseA m k).length < m.length := by
  induction m with
  | nil => simp [lookupA] at h
  | cons p t ih =>
    obtain ⟨pk, pv⟩ := p
    by_cases hk : pk = k
    · subst hk
      have he : eraseA ((pk, pv) :: t) pk = eraseA t pk := by simp [eraseA]
      rw [he]
      exact Nat.lt_succ_of_le (length_eraseA_le t pk)
    · simp [lookupA, hk] at h
      have he : eraseA ((pk, pv) :: t) k = (pk, pv) :: eraseA t k := by simp [eraseA, hk]
      rw [he]
      exact Nat.succ_lt_succ (ih h)

theorem filter_ne_cons_self (c : Nat) (l : List Nat) (h : c ∉ l) :
    (c :: l).filter (· ≠ c) = l := by
  have h1 : (c :: l).filter (· ≠ c) = l.filter (· ≠ c) := by simp
  rw [h1]
  exact List.filter_eq_self.mpr fun a ha => by
    simp only [ne_eq, decide_eq_true_eq]
    exact fun hac => h (hac ▸ ha)

/-! ### Shared facts about the release cascade and depth -/

/-- Early return of the release cascade: when the node's count stays
positive after the decrement, only that node's count changes. -/
theorem releaseLayerGo_early (dFail : List Nat) (fuel : Nat) (ls : layerStore) (c : Digest)
    (l : roLayer) (depth : Nat) (removed : List Metadata)
    (hl : lookupA ls.layerMap c = some l) (h0 : l.referenceCount ≠ 0)
    (h1 : l.referenceCount ≠ 1) :
    releaseLayerGo dFail (fuel + 1) ls c depth removed =
      (.ok removed,
        { ls with layerMap := updateA ls.layerMap c { l with referenceCount := l.referenceCount - 1 } }) := by
  have h2 : l.referenceCount - 1 ≠ 0 := by omega
  simp only [releaseLayerGo, hl, if_neg h0]
  rw [if_pos h2]

/-- Releasing a parent reference taken by `get` restores the store
exactly, provided the parent is retained elsewhere (its count was
already positive). -/
theorem releaseLayer_after_get (dFail : List Nat) (ls : layerStore) (pc : Digest)
    (p : roLayer) (hp : lookupA ls.layerMap pc = some p)
    (hrc : 1 ≤ p.referenceCount) :
    releaseLayer dFail
      { ls with layerMap := updateA ls.layerMap pc { p with referenceCount := p.referenceCount + 1 } }
      pc = (.ok [], ls) := by
  have hl := lookupA_updateA_self ls.layerMap pc p
    { p with referenceCount := p.referenceCount + 1 } hp
  have := releaseLayerGo_early dFail
    (updateA ls.layerMap pc { p with referenceCount := p.referenceCount + 1 }).length
    { ls with layerMap := updateA ls.layerMap pc { p with referenceCount := p.referenceCount + 1 } }
    pc { p with referenceCount := p.referenceCount + 1 } 0 [] hl
    (by simp) (by simp; omega)
  rw [releaseLayer]
  rw [this]
  simp only [Nat.add_sub_cancel, updateA_updateA]
  rw [show { p with referenceCount := p.referenceCount } = p from rfl, updateA_id ls.layerMap pc p hp]

/-- `depthGo` only reads the parent field of its node argument. -/
theorem depthGo_parent_congr (m : List (Digest × roLayer)) (fuel : Nat) (a b : roLayer)
    (h : a.parent = b.parent) : depthGo m fuel a = depthGo m fuel b := by
  cases fuel with
  | zero => rfl
  | succ n => simp only [depthGo, h]

/-- Updating a node's reference count does not change any depth. -/
theorem depthGo_update_rc (m : List (Digest × roLayer)) (c : Digest) (l0 : roLayer) (k : Nat)
    (hc : lookupA m c = some l0) (fuel : Nat) (l : roLayer) :
    depthGo (updateA m c { l0 with referenceCount := k }) fuel l = depthGo m fuel l := by
  induction fuel generalizing l with
  | zero => rfl
  | succ n ih =>
    simp only [depthGo]
    cases hl : l.parent with
    | none => rfl
    | some pc =>
      dsimp only
      by_cases hpc : pc = c
      · subst hpc
        rw [lookupA_updateA_self m pc l0 _ hc, hc]
        dsimp only
        rw [ih, depthGo_parent_congr m n { l0 with referenceCount := k } l0 rfl]
      · rw [lookupA_updateA_ne m c pc _ hpc]
        cases lookupA m pc with
        | none => rfl
        | some q =>
          dsimp only
          rw [ih]

/-! ### Concrete states used by witnesses -/

/-- The empty store. -/
def emptyStore : layerStore :=
  { layerMap := [], mounts := [], metaRecords := [], mountRecords := [], driverStores := []
    nextID := 0 }

def dA : Digest := .diffD 0

def recA : LayerRecord := ⟨dA, 5, 100, none⟩

def nodeA : roLayer :=
  { chainID := dA, diffID := dA, size := 5, cacheID := 100, parent := none
    referenceCount := 1, references := [7] }

/-- A store holding one root layer with a single live handle. -/
def storeA : layerStore :=
  { layerMap := [(dA, nodeA)], mounts := [], metaRecords := [(dA, recA)], mountRecords := []
    driverStores := [100], nextID := 200 }

/-! ### Depth bound (C4) -/

/-- General form of the depth check: a `Register` against a parent of
depth at least `maxLayerDepth` fails with `ErrMaxDepthExceeded` and the
deferred release of the parent's just-taken reference restores the store
exactly. -/
theorem register_depth_exceeded (ls : layerStore) (ts : DiffStream) (pc : Digest)
    (p : roLayer) (f : RegFail)
    (hp : lookupA ls.layerMap pc = some p)
    (hrc : 1 ≤ p.referenceCount)
    (hd : maxLayerDepth ≤ depthGo ls.layerMap (ls.layerMap.length + 1) p) :
    ls.registerWithDescriptor ts (some pc) f = (.error .ErrMaxDepthExceeded, ls) := by
  have key : depthGo (updateA ls.layerMap pc { p with referenceCount := p.referenceCount + 1 })
      ((updateA ls.layerMap pc { p with referenceCount := p.referenceCount + 1 }).length + 1)
      { p with referenceCount := p.referenceCount + 1 }
      = depthGo ls.layerMap (ls.layerMap.length + 1) p := by
    rw [length_updateA, depthGo_update_rc ls.layerMap pc p _ hp,
      depthGo_parent_congr _ _ { p with referenceCount := p.referenceCount + 1 } p rfl]
  simp only [layerStore.registerWithDescriptor, layerStore.get, hp]
  rw [key, if_pos hd, releaseLayer_after_get [] ls pc p hp hrc]

/-- The chain ID of the `n`-th layer in the canonical test chain
(layer `k` is registered from the diff stream with content `k`). -/
def chainD : Nat → Digest
  | 0 => .diffD 0
  | n + 1 => .chain (chainD n) (.diffD (n + 1))

/-- Chain length of a digest. -/
def dlen : Digest → Nat
  | .diffD _ => 0
  | .chain p _ => dlen p + 1

theorem dlen_chainD (n : Nat) : dlen (chainD n) = n := by
  induction n with
  | zero => rfl
  | succ m ih => simp [chainD, dlen, ih]

theorem chainD_inj {a b : Nat} (h : chainD a = chainD b) : a = b := by
  have := congrArg dlen h
  rwa [dlen_chainD, dlen_chainD] at this

def chainParent : Nat → Option Digest
  | 0 => none
  | k + 1 => some (chainD k)

/-- The `k`-th node of the canonical chain with reference count `rc`
(count 1 while it is the tip, 2 once a child chains onto it). -/
def chainNode (k : Nat) (rc : Nat) : roLayer :=
  { chainID := chainD k, diffID := .diffD k, size := 1, cacheID := 2 * k
    parent := chainParent k, referenceCount := rc, references := [2 * k + 1] }

/-- The first `k` chain nodes, all with a child (count 2), newest
first. -/
def chainMapA : Nat → List (Digest × roLayer)
  | 0 => []
  | k + 1 => (chainD k, chainNode k 2) :: chainMapA k

/-- The layer index after `n` registrations: the tip has count 1. -/
def chainMap : Nat → List (Digest × roLayer)
  | 0 => []
  | n + 1 => (chainD n, chainNode n 1) :: chainMapA n

def chainStores : Nat → List Nat
  | 0 => []
  | n + 1 => 2 * n :: chainStores n

def chainRecs : Nat → List (Digest × LayerRecord)
  | 0 => []
  | n + 1 => (chainD n, ⟨.diffD n, 1, 2 * n, chainParent n⟩) :: chainRecs n

/-- The full store state after `n` successful chain registrations. -/
def chainStore (n : Nat) : layerStore :=
  { layerMap := chainMap n, mounts := [], metaRecords := chainRecs n, mountRecords := []
    driverStores := chainStores n, nextID := 2 * n }

def chainTip : Nat → Option Digest
  | 0 => none
  | n + 1 => some (chainD n)

theorem chainMapA_length (N : Nat) : (chainMapA N).length = N := by
  induction N with
  | zero => rfl
  | succ k ih => simp [chainMapA, ih]

theorem chainMap_length (N : Nat) : (chainMap N).length = N := by
  cases N with
  | zero => rfl
  | succ k => simp [chainMap, chainMapA_length]

theorem chainMapA_lookup (N j : Nat) (h : j < N) :
    lookupA (chainMapA N) (chainD j) = some (chainNode j 2) := by
  induction N with
  | zero => omega
  | succ k ih =>
    by_cases hj : k = j
    · subst hj
      simp [chainMapA, lookupA]
    · have hne : chainD k ≠ chainD j := fun he => hj (chainD_inj he)
      have : lookupA (chainMapA (k + 1)) (chainD j) = lookupA (chainMapA k) (chainD j) := by
        simp [chainMapA, lookupA, hne]
      rw [this]
      exact ih (by omega)

theorem chainMapA_lookup_none (N j : Nat) (h : N ≤ j) :
    lookupA (chainMapA N) (chainD j) = none := by
  induction N with
  | zero => rfl
  | succ k ih =>
    have hne : chainD k ≠ chainD j := fun he => by have := chainD_inj he; omega
    simp [chainMapA, lookupA, hne]
    exact ih (by omega)

/-- Lookup property shared by `chainMap` and `chainMapA`: every index
below `N` resolves to its chain node (with some reference count). -/
def ChainLk (M : List (Digest × roLayer)) (N : Nat) : Prop :=
  ∀ j, j < N → ∃ rc, lookupA M (chainD j) = some (chainNode j rc)

theorem chainLk_chainMapA (N : Nat) : ChainLk (chainMapA N) N :=
  fun j hj => ⟨2, chainMapA_lookup N j hj⟩

theorem chainLk_chainMap (N : Nat) : ChainLk (chainMap N) N := by
  intro j hj
  cases N with
  | zero => omega
  | succ k =>
    by_cases hjk : j = k
    · subst hjk
      exact ⟨1, by simp [chainMap, lookupA]⟩
    · refine ⟨2, ?_⟩
      have hne : chainD k ≠ chainD j := fun he => hjk (chainD_inj he).symm
      have : lookupA (chainMap (k + 1)) (chainD j) = lookupA (chainMapA k) (chainD j) := by
        simp [chainMap, lookupA, hne]
      rw [this]
      exact chainMapA_lookup k j (by omega)

theorem chainNode_parent (k rc : Nat) : (chainNode k rc).parent = chainParent k := rfl

/-- In any map with the chain-lookup property, the `k`-th chain node has
depth `k + 1`. -/
theorem depth_chainNode (M : List (Digest × roLayer)) (N : Nat) (hM : ChainLk M N) :
    ∀ k rc fuel, k < N → k + 1 ≤ fuel → depthGo M fuel (chainNode k rc) = k + 1 := by
  intro k
  induction k with
  | zero =>
    intro rc fuel _ hf
    match fuel, hf with
    | f + 1, _ => simp [depthGo, chainNode_parent, chainParent]
  | succ m ih =>
    intro rc fuel hk hf
    match fuel, hf with
    | f + 1, _ =>
      obtain ⟨rc2, hlk⟩ := hM m (by omega)
      simp only [depthGo, chainNode_parent, chainParent, hlk]
      rw [ih rc2 f (by omega) (by omega)]

theorem chainNode_bump (k : Nat) :
    ({ chainNode k 1 with referenceCount := (chainNode k 1).referenceCount + 1 }) =
      chainNode k 2 := rfl

theorem chainMap_update (m : Nat) :
    updateA (chainMap (m + 1)) (chainD m) (chainNode m 2) = chainMapA (m + 1) := by
  simp [chainMap, chainMapA, updateA]

/-- The canonical chain is constructible: each successful `Register`
against the current tip takes `chainStore n` to `chainStore (n + 1)` and
returns a handle on the new tip. -/
theorem chain_register_step (n : Nat) (hn : n < maxLayerDepth) :
    (chainStore n).registerWithDescriptor ⟨n, 1⟩ (chainTip n) regOK =
      (.ok ⟨chainD n, 2 * n + 1⟩, chainStore (n + 1)) := by
  cases n with
  | zero => rfl
  | succ m =>
    have hget : lookupA (chainStore (m + 1)).layerMap (chainD m) = some (chainNode m 1) := by
      simp [chainStore, chainMap, lookupA]
    have hdep : depthGo (chainMapA (m + 1)) (m + 1 + 1) (chainNode m 2) = m + 1 :=
      depth_chainNode _ (m + 1) (chainLk_chainMapA (m + 1)) m 2 _ (by omega) (by omega)
    have hnone : lookupA (chainMapA (m + 1)) (Digest.chain (chainD m) (.diffD (m + 1))) = none :=
      chainMapA_lookup_none (m + 1) (m + 1) (le_refl _)
    have hcond : ¬ maxLayerDepth ≤ m + 1 := by
      simp only [maxLayerDepth] at hn ⊢
      omega
    simp only [chainTip, layerStore.registerWithDescriptor, layerStore.get, hget,
      chainNode_bump]
    rw [show (chainStore (m + 1)).layerMap = chainMap (m + 1) from rfl, chainMap_update,
      chainMapA_length, hdep, if_neg hcond]
    simp only [registerCore, regOK, Bool.false_eq_true, if_false, hnone]
    simp only [getReferenceRO, lookupA, eq_self_iff_true, if_true, List.nil_append]
    simp only [updateA, eq_self_iff_true, if_true]
    simp [chainStore, chainMap, chainRecs, chainStores, chainNode, chainParent, chainD,
      Prod.ext_iff, layerStore.mk.injEq, roLayer.mk.injEq, LayerRecord.mk.injEq]
    omega

/-- Registering against the tip of a full-depth chain fails with
`ErrMaxDepthExceeded` and leaves the store unchanged. -/
theorem chain_register_deep (N : Nat) (h : maxLayerDepth ≤ N) (ts : DiffStream) (f : RegFail) :
    (chainStore N).registerWithDescriptor ts (chainTip N) f =
      (.error .ErrMaxDepthExceeded, chainStore N) := by
  cases N with
  | zero => simp [maxLayerDepth] at h
  | succ m =>
    apply register_depth_exceeded
    · show lookupA (chainMap (m + 1)) (chainD m) = some (chainNode m 1)
      simp [chainMap, lookupA]
    · exact le_refl 1
    · show maxLayerDepth ≤ depthGo (chainMap (m + 1)) ((chainMap (m + 1)).length + 1)
        (chainNode m 1)
      rw [depth_chainNode (chainMap (m + 1)) (m + 1) (chainLk_chainMap (m + 1)) m 1
        ((chainMap (m + 1)).length + 1) (by omega) (by rw [chainMap_length]; omega)]
      omega

/-- C4: `Register` enforces the depth bound: against any parent whose
root-to-node chain depth is at least 125 (`maxLayerDepth`) it fails with
`ErrMaxDepthExceeded`, releasing the parent reference it just took so
the store is unchanged; moreover a chain of depth 125 is constructible
by 125 successive `Register` calls, and the 126th `Register` in that
chain fails with `ErrMaxDepthExceeded`. -/
theorem C4_register_depth_bound (ls : layerStore) (ts : DiffStream) (pc : Digest)
    (p : roLayer) (f : RegFail)
    (hp : lookupA ls.layerMap pc = some p)
    (hrc : 1 ≤ p.referenceCount)
    (hd : maxLayerDepth ≤ depthGo ls.layerMap (ls.layerMap.length + 1) p) :
    ls.registerWithDescriptor ts (some pc) f = (.error .ErrMaxDepthExceeded, ls) ∧
    (∀ n, n < maxLayerDepth →
      (chainStore n).registerWithDescriptor ⟨n, 1⟩ (chainTip n) regOK =
        (.ok ⟨chainD n, 2 * n + 1⟩, chainStore (n + 1))) ∧
    (chainStore maxLayerDepth).registerWithDescriptor ⟨maxLayerDepth, 1⟩
        (chainTip maxLayerDepth) regOK =
      (.error .ErrMaxDepthExceeded, chainStore maxLayerDepth) :=
  ⟨register_depth_exceeded ls ts pc p f hp hrc hd,
    fun n hn => chain_register_step n hn,
    chain_register_deep maxLayerDepth (le_refl _) ⟨maxLayerDepth, 1⟩ regOK⟩

/-- Witness for C4 at the tip of the concrete depth-125 chain. -/
theorem C4_register_depth_bound_witness :
    lookupA (chainStore maxLayerDepth).layerMap (chainD 124) = some (chainNode 124 1) ∧
    1 ≤ (chainNode 124 1).referenceCount ∧
    maxLayerDepth ≤ depthGo (chainStore maxLayerDepth).layerMap
      ((chainStore maxLayerDepth).layerMap.length + 1) (chainNode 124 1) ∧
    ((chainStore maxLayerDepth).registerWithDescriptor ⟨125, 1⟩ (some (chainD 124)) regOK =
        (.error .ErrMaxDepthExceeded, chainStore maxLayerDepth) ∧
      (∀ n, n < maxLayerDepth →
        (chainStore n).registerWithDescriptor ⟨n, 1⟩ (chainTip n) regOK =
          (.ok ⟨chainD n, 2 * n + 1⟩, chainStore (n + 1))) ∧
      (chainStore maxLayerDepth).registerWithDescriptor ⟨maxLayerDepth, 1⟩
          (chainTip maxLayerDepth) regOK =
        (.error .ErrMaxDepthExceeded, chainStore maxLayerDepth)) := by
  have h1 : lookupA (chainStore maxLayerDepth).layerMap (chainD 124) =
      some (chainNode 124 1) := by
    show lookupA (chainMap (124 + 1)) (chainD 124) = some (chainNode 124 1)
    simp [chainMap, lookupA]
  have h2 : 1 ≤ (chainNode 124 1).referenceCount := le_refl 1
  have h3 : maxLayerDepth ≤ depthGo (chainStore maxLayerDepth).layerMap
      ((chainStore maxLayerDepth).layerMap.length + 1) (chainNode 124 1) := by
    show maxLayerDepth ≤ depthGo (chainMap 125) ((chainMap 125).length + 1) (chainNode 124 1)
    rw [depth_chainNode (chainMap 125) 125 (chainLk_chainMap 125) 124 1
      ((chainMap 125).length + 1) (by omega) (by rw [chainMap_length]; omega)]
    decide
  exact ⟨h1, h2, h3,
    C4_register_depth_bound (chainStore maxLayerDepth) ⟨125, 1⟩ (chainD 124)
      (chainNode 124 1) regOK h1 h2 h3⟩

/-! ### C5 -/

/-- C5: the `ReleaseRWLayer` contract.  With the handle actually held on
an indexed mount: (1) while other live references remain, releasing
returns `([], nil)` and only drops the handle from the mount's reference
set; on the last handle (2) a failing removal of the writable store, (3)
of the init store, or (4) of the mount metadata record returns the error
with the handle reference retaken (the mount stays indexed and
retryable, earlier successful removals persisting); otherwise the
writable store, the init store if present, the mount record and the
index entry are all removed and the parent chain is released — (5) with
no parent nothing else changes, (6) with a parent retained elsewhere its
reference count is decremented. -/
theorem C5_release_rw_contract (dFail : List Nat) (ls : layerStore) (l : RWLayer)
    (m : mountedLayer)
    (hm : lookupA ls.mounts l.name = some m)
    (hheld : l.refID ∈ m.references) :
    (∀ rmF x xs, m.references.erase l.refID = x :: xs →
      layerStore.ReleaseRWLayer dFail rmF ls l = (.ok [],
        { ls with
          mounts := updateA ls.mounts l.name
            { m with references := m.references.erase l.refID } })) ∧
    (∀ rmF, m.references.erase l.refID = [] → m.mountID ∈ dFail →
      layerStore.ReleaseRWLayer dFail rmF ls l = (.error (.driverRemoveFailed m.mountID),
        { ls with mounts := updateA ls.mounts l.name { m with references := [l.refID] } })) ∧
    (∀ rmF iid, m.references.erase l.refID = [] → m.mountID ∉ dFail →
      m.initID = some iid → iid ∈ dFail →
      layerStore.ReleaseRWLayer dFail rmF ls l = (.error (.driverRemoveFailed iid),
        { ls with
          mounts := updateA ls.mounts l.name { m with references := [l.refID] }
          driverStores := ls.driverStores.filter (· ≠ m.mountID) })) ∧
    (m.references.erase l.refID = [] → m.mountID ∉ dFail →
      (∀ iid, m.initID = some iid → iid ∉ dFail) →
      layerStore.ReleaseRWLayer dFail true ls l = (.error .removeMountFailed,
        { ls with
          mounts := updateA ls.mounts l.name { m with references := [l.refID] }
          driverStores := (match m.initID with
            | none => ls.driverStores.filter (· ≠ m.mountID)
            | some iid => (ls.driverStores.filter (· ≠ m.mountID)).filter (· ≠ iid)) })) ∧
    (m.references.erase l.refID = [] → m.mountID ∉ dFail →
      (∀ iid, m.initID = some iid → iid ∉ dFail) → m.parent = none →
      layerStore.ReleaseRWLayer dFail false ls l = (.ok [],
        { ls with
          mounts := eraseA ls.mounts l.name
          mountRecords := eraseA ls.mountRecords l.name
          driverStores := (match m.initID with
            | none => ls.driverStores.filter (· ≠ m.mountID)
            | some iid => (ls.driverStores.filter (· ≠ m.mountID)).filter (· ≠ iid)) })) ∧
    (∀ pc p, m.references.erase l.refID = [] → m.mountID ∉ dFail →
      (∀ iid, m.initID = some iid → iid ∉ dFail) → m.parent = some pc →
      lookupA ls.layerMap pc = some p → 2 ≤ p.referenceCount →
      layerStore.ReleaseRWLayer dFail false ls l = (.ok [],
        { ls with
          layerMap := updateA ls.layerMap pc
            { p with referenceCount := p.referenceCount - 1 }
          mounts := eraseA ls.mounts l.name
          mountRecords := eraseA ls.mountRecords l.name
          driverStores := (match m.initID with
            | none => ls.driverStores.filter (· ≠ m.mountID)
            | some iid => (ls.driverStores.filter (· ≠ m.mountID)).filter (· ≠ iid)) })) := by
  have hc : m.references.contains l.refID = true := by simpa using hheld
  have hdel : m.deleteReference l.refID =
      .ok { m with references := m.references.erase l.refID } := by
    simp [mountedLayer.deleteReference, hc, hheld]
  refine ⟨?_, ?_, ?_, ?_, ?_, ?_⟩
  · intro rmF x xs herase
    simp only [layerStore.ReleaseRWLayer, hm, hdel, mountedLayer.hasReferences, herase]
    rfl
  · intro rmF he hmem
    simp only [layerStore.ReleaseRWLayer, hm, hdel, mountedLayer.hasReferences, he,
      mountedLayer.retakeReference]
    simp only [List.isEmpty_nil, Bool.not_true, Bool.false_eq_true, if_false]
    rw [if_pos hmem, updateA_updateA]
  · intro rmF iid he hmem hinit hmem2
    simp only [layerStore.ReleaseRWLayer, hm, hdel, mountedLayer.hasReferences, he,
      mountedLayer.retakeReference, hinit]
    simp only [List.isEmpty_nil, Bool.not_true, Bool.false_eq_true, if_false]
    rw [if_neg hmem, if_pos (by simp [hinit, hmem2])]
    simp only [hinit, he, updateA_updateA]
    rfl
  · intro he hmem hinit
    simp only [layerStore.ReleaseRWLayer, hm, hdel, mountedLayer.hasReferences, he,
      mountedLayer.retakeReference]
    simp only [List.isEmpty_nil, Bool.not_true, Bool.false_eq_true, if_false]
    rw [if_neg hmem, if_neg (by
      intro hcon
      cases hii : m.initID with
      | none => rw [hii] at hcon; simp at hcon
      | some iid =>
        rw [hii] at hcon
        exact absurd hcon.2 (hinit iid hii))]
    cases hii : m.initID with
    | none => simp [hii, updateA_updateA]
    | some iid => simp [hii, updateA_updateA]
  · intro he hmem hinit hpar
    simp only [layerStore.ReleaseRWLayer, hm, hdel, mountedLayer.hasReferences, he, hpar]
    simp only [List.isEmpty_nil, Bool.not_true, Bool.false_eq_true, if_false]
    rw [if_neg hmem, if_neg (by
      intro hcon
      cases hii : m.initID with
      | none => rw [hii] at hcon; simp at hcon
      | some iid =>
        rw [hii] at hcon
        exact absurd hcon.2 (hinit iid hii))]
    cases hii : m.initID with
    | none => simp [hii, hpar, eraseA_updateA]
    | some iid => simp [hii, hpar, eraseA_updateA]
  · intro pc p he hmem hinit hpar hp hrc
    simp only [layerStore.ReleaseRWLayer, hm, hdel, mountedLayer.hasReferences, he, hpar]
    simp only [List.isEmpty_nil, Bool.not_true, Bool.false_eq_true, if_false]
    rw [if_neg hmem, if_neg (by
      intro hcon
      cases hii : m.initID with
      | none => rw [hii] at hcon; simp at hcon
      | some iid =>
        rw [hii] at hcon
        exact absurd hcon.2 (hinit iid hii))]
    have h0 : p.referenceCount ≠ 0 := by omega
    have h1 : p.referenceCount ≠ 1 := by omega
    have hrel : ∀ mo mr dr,
        releaseLayer dFail { layerMap := ls.layerMap, mounts := mo, metaRecords := ls.metaRecords, mountRecords := mr, driverStores := dr, nextID := ls.nextID } pc = (.ok [], { layerMap := updateA ls.layerMap pc { p with referenceCount := p.referenceCount - 1 }, mounts := mo, metaRecords := ls.metaRecords, mountRecords := mr, driverStores := dr, nextID := ls.nextID }) := by
      intro mo mr dr
      exact releaseLayerGo_early dFail ls.layerMap.length _ pc p 0 [] hp h0 h1
    cases hii : m.initID with
    | none =>
      simp only [hii, hpar]
      rw [hrel, eraseA_updateA]
    | some iid =>
      simp only [hii, hpar]
      rw [hrel, eraseA_updateA]

def mountW : mountedLayer :=
  { name := "w", mountID := 301, initID := some 302, parent := some dA, references := [5, 6] }

/-- A store holding one mount "w" (two handles, an init layer and a
parent) atop the root layer of `storeA`. -/
def storeW : layerStore :=
  { layerMap := [(dA, { nodeA with referenceCount := 2 })], mounts := [("w", mountW)]
    metaRecords := [(dA, recA)], mountRecords := [("w", ⟨some 301, some 302, some dA⟩)]
    driverStores := [301, 302, 100], nextID := 400 }

/-- Witness for C5 at the concrete mount of `storeW`. -/
theorem C5_release_rw_contract_witness :
    lookupA storeW.mounts "w" = some mountW ∧ (5 : Nat) ∈ mountW.references ∧
    ((∀ rmF x xs, mountW.references.erase 5 = x :: xs →
      layerStore.ReleaseRWLayer [] rmF storeW ⟨"w", 5⟩ = (.ok [],
        { storeW with
          mounts := updateA storeW.mounts "w"
            { mountW with references := mountW.references.erase 5 } })) ∧
    (∀ rmF, mountW.references.erase 5 = [] → mountW.mountID ∈ [] →
      layerStore.ReleaseRWLayer [] rmF storeW ⟨"w", 5⟩ =
        (.error (.driverRemoveFailed mountW.mountID),
        { storeW with
          mounts := updateA storeW.mounts "w" { mountW with references := [5] } })) ∧
    (∀ rmF iid, mountW.references.erase 5 = [] → mountW.mountID ∉ [] →
      mountW.initID = some iid → iid ∈ [] →
      layerStore.ReleaseRWLayer [] rmF storeW ⟨"w", 5⟩ = (.error (.driverRemoveFailed iid),
        { storeW with
          mounts := updateA storeW.mounts "w" { mountW with references := [5] }
          driverStores := storeW.driverStores.filter (· ≠ mountW.mountID) })) ∧
    (mountW.references.erase 5 = [] → mountW.mountID ∉ [] →
      (∀ iid, mountW.initID = some iid → iid ∉ []) →
      layerStore.ReleaseRWLayer [] true storeW ⟨"w", 5⟩ = (.error .removeMountFailed,
        { storeW with
          mounts := updateA storeW.mounts "w" { mountW with references := [5] }
          driverStores := (match mountW.initID with
            | none => storeW.driverStores.filter (· ≠ mountW.mountID)
            | some iid =>
              (storeW.driverStores.filter (· ≠ mountW.mountID)).filter (· ≠ iid)) })) ∧
    (mountW.references.erase 5 = [] → mountW.mountID ∉ [] →
      (∀ iid, mountW.initID = some iid → iid ∉ []) → mountW.parent = none →
      layerStore.ReleaseRWLayer [] false storeW ⟨"w", 5⟩ = (.ok [],
        { storeW with
          mounts := eraseA storeW.mounts "w"
          mountRecords := eraseA storeW.mountRecords "w"
          driverStores := (match mountW.initID with
            | none => storeW.driverStores.filter (· ≠ mountW.mountID)
            | some iid =>
              (storeW.driverStores.filter (· ≠ mountW.mountID)).filter (· ≠ iid)) })) ∧
    (∀ pc p, mountW.references.erase 5 = [] → mountW.mountID ∉ [] →
      (∀ iid, mountW.initID = some iid → iid ∉ []) → mountW.parent = some pc →
      lookupA storeW.layerMap pc = some p → 2 ≤ p.referenceCount →
      layerStore.ReleaseRWLayer [] false storeW ⟨"w", 5⟩ = (.ok [],
        { storeW with
          layerMap := updateA storeW.layerMap pc
            { p with referenceCount := p.referenceCount - 1 }
          mounts := eraseA storeW.mounts "w"
          mountRecords := eraseA storeW.mountRecords "w"
          driverStores := (match mountW.initID with
            | none => storeW.driverStores.filter (· ≠ mountW.mountID)
            | some iid =>
              (storeW.driverStores.filter (· ≠ mountW.mountID)).filter (· ≠ iid)) }))) :=
  ⟨rfl, by decide, C5_release_rw_contract [] storeW ⟨"w", 5⟩ mountW rfl (by decide)⟩

/-! ### C2 -/

/-- Erase a list of keys from an association list. -/
def eraseAll {κ α : Type} [DecidableEq κ] (m : List (κ × α)) (ks : List κ) : List (κ × α) :=
  ks.foldl eraseA m

/-- Remove a list of driver store IDs. -/
def filterAll (d : List Nat) (ids : List Nat) : List Nat :=
  ids.foldl (fun acc i => acc.filter (· ≠ i)) d

/-- The dying chain is linked: each node's parent is the next entry, and
the last node's parent is the stop node (or absent). -/
def chainLink : List (Digest × roLayer) → Option (Digest × roLayer) → Prop
  | [], _ => True
  | [pr] , stop => pr.2.parent = stop.map Prod.fst
  | pr :: pr2 :: rest, stop => pr.2.parent = some pr2.1 ∧ chainLink (pr2 :: rest) stop

theorem lookupA_mem {κ α : Type} [DecidableEq κ] (m : List (κ × α)) (k : κ) (v : α)
    (h : lookupA m k = some v) : k ∈ m.map Prod.fst := by
  induction m with
  | nil => simp [lookupA] at h
  | cons p t ih =>
    obtain ⟨pk, pv⟩ := p
    by_cases hk : pk = k
    · subst hk
      simp
    · simp [lookupA, hk] at h
      simp [ih h]

theorem dying_length_le {κ α : Type} [DecidableEq κ] (d m : List (κ × α))
    (hnd : (d.map Prod.fst).Nodup)
    (hin : ∀ pr ∈ d, ∃ v, lookupA m pr.1 = some v) :
    d.length ≤ m.length := by
  have hsub : d.map Prod.fst ⊆ m.map Prod.fst := by
    intro k hk
    obtain ⟨pr, hpr, hfst⟩ := List.mem_map.mp hk
    obtain ⟨v, hv⟩ := hin pr hpr
    exact hfst ▸ lookupA_mem m pr.1 v hv
  have := (List.subperm_of_subset hnd hsub).length_le
  simpa using this

theorem eraseAll_nil {κ α : Type} [DecidableEq κ] (m : List (κ × α)) :
    eraseAll m [] = m := rfl

theorem eraseAll_cons {κ α : Type} [DecidableEq κ] (m : List (κ × α)) (k : κ) (ks : List κ) :
    eraseAll m (k :: ks) = eraseAll (eraseA m k) ks := rfl

theorem filterAll_nil (d : List Nat) : filterAll d [] = d := rfl

theorem filterAll_cons (d : List Nat) (i : Nat) (ids : List Nat) :
    filterAll d (i :: ids) = filterAll (d.filter (· ≠ i)) ids := rfl

/-- The deletion cascade of `releaseLayerGo`: entered at a node whose
count is about to drop to zero, it deletes the dying chain child-first,
decrements the first surviving ancestor if any, and appends one
accounting record per deleted node in child-to-root order. -/
theorem releaseLayerGo_cascade (dFail : List Nat) (dying : List (Digest × roLayer)) :
    ∀ (c : Digest) (n : roLayer) (rest : List (Digest × roLayer)) (fuel : Nat)
      (ls : layerStore) (stop : Option (Digest × roLayer)) (depth : Nat)
      (removed : List Metadata),
    dying = (c, n) :: rest →
    dying.length + 1 ≤ fuel →
    (dying.map Prod.fst).Nodup →
    (∀ pr ∈ dying, lookupA ls.layerMap pr.1 = some pr.2) →
    (∀ pr ∈ dying, pr.2.chainID = pr.1) →
    (∀ pr ∈ dying, pr.2.referenceCount = 1) →
    (∀ pr ∈ dying, pr.2.references = []) →
    (∀ pr ∈ dying, pr.2.cacheID ∉ dFail) →
    chainLink dying stop →
    (∀ cs ns, stop = some (cs, ns) → cs ∉ dying.map Prod.fst ∧
      lookupA ls.layerMap cs = some ns ∧ 2 ≤ ns.referenceCount) →
    (removed = [] → depth = 0) →
    ∃ mds : List Metadata,
      releaseLayerGo dFail fuel ls c depth removed = (.ok (removed ++ mds),
        { ls with
          layerMap := (match stop with
            | none => eraseAll ls.layerMap (dying.map Prod.fst)
            | some pr => updateA (eraseAll ls.layerMap (dying.map Prod.fst)) pr.1
                { pr.2 with referenceCount := pr.2.referenceCount - 1 })
          metaRecords := eraseAll ls.metaRecords (dying.map Prod.fst)
          driverStores := filterAll ls.driverStores (dying.map (fun pr => pr.2.cacheID)) }) ∧
      mds.map Metadata.chainID = dying.map Prod.fst ∧
      mds.map Metadata.diffID = dying.map (fun pr => pr.2.diffID) ∧
      mds.map Metadata.diffSize = dying.map (fun pr => pr.2.size) := by
  induction dying with
  | nil =>
    intro c n rest fuel ls stop depth removed heq
    exact absurd heq (by simp)
  | cons hd tl ih =>
    intro c n rest fuel ls stop depth removed heq hfuel hnd hlook hcid hrc hrefs hcache
      hlink hstop hdep
    injection heq with h1 h2
    subst h1
    subst h2
    obtain ⟨f, rfl⟩ : ∃ f, fuel = f + 1 := ⟨fuel - 1, by simp at hfuel; omega⟩
    have hlc : lookupA ls.layerMap c = some n := hlook (c, n) (by simp)
    have hrcn : n.referenceCount = 1 := hrc (c, n) (by simp)
    have hrefn : n.references = [] := hrefs (c, n) (by simp)
    have hcan : n.cacheID ∉ dFail := hcache (c, n) (by simp)
    have hcidn : n.chainID = c := hcid (c, n) (by simp)
    have hcnotin : c ∉ tl.map Prod.fst := by
      have := hnd
      simp only [List.map_cons, List.nodup_cons] at this
      exact this.1
    have hcond : (removed.isEmpty && decide (0 < depth)) = false := by
      cases removed with
      | nil => simp [hdep rfl]
      | cons a as => simp
    simp only [releaseLayerGo, hlc]
    rw [if_neg (show ¬ n.referenceCount = 0 by omega)]
    simp only [hrcn, hrefn, hcidn, Nat.sub_self, roLayer.hasReferences, deleteLayer,
      List.isEmpty_nil, Bool.not_true, hcond, Bool.false_eq_true, if_false, ne_eq,
      not_false_eq_true, not_true_eq_false, ite_not]
    rw [if_neg hcan]
    dsimp only
    rw [eraseA_updateA]
    cases tl with
    | nil =>
      have hpar : n.parent = stop.map Prod.fst := hlink
      cases stop with
      | none =>
        simp only [Option.map_none'] at hpar
        simp only [hpar]
        refine ⟨[{ chainID := c, diffID := n.diffID, size := sizeGo (eraseA ls.layerMap c) ((eraseA ls.layerMap c).length + 1) { chainID := c, diffID := n.diffID, size := n.size, cacheID := n.cacheID, parent := n.parent, referenceCount := 0, references := [] }, diffSize := n.size }], ?_, by simp, by simp, by simp⟩
        simp only [List.map_cons, List.map_nil, eraseAll_cons, eraseAll_nil,
          filterAll_cons, filterAll_nil, hpar, ne_eq]
      | some pr =>
        obtain ⟨cs, ns⟩ := pr
        simp only [Option.map_some'] at hpar
        simp only [hpar]
        obtain ⟨hnotin, hlcs, hrcs⟩ := hstop cs ns rfl
        have hcsne : cs ≠ c := by
          intro hcon
          exact hnotin (by simp [hcon])
        obtain ⟨f2, rfl⟩ : ∃ f2, f = f2 + 1 := ⟨f - 1, by simp at hfuel; omega⟩
        have hlk : lookupA (eraseA ls.layerMap c) cs = some ns := by
          rw [lookupA_eraseA, if_neg hcsne]
          exact hlcs
        rw [releaseLayerGo_early dFail f2 _ cs ns (depth + 1) _ hlk (by omega) (by omega)]
        refine ⟨[{ chainID := c, diffID := n.diffID, size := sizeGo (eraseA ls.layerMap c) ((eraseA ls.layerMap c).length + 1) { chainID := c, diffID := n.diffID, size := n.size, cacheID := n.cacheID, parent := n.parent, referenceCount := 0, references := [] }, diffSize := n.size }], ?_, by simp, by simp, by simp⟩
        simp [hpar, eraseAll, filterAll]
    | cons pr2 rest2 =>
      obtain ⟨hpar, hlink2⟩ := hlink
      simp only [show ((c, n).2 : roLayer) = n from rfl] at hpar
      simp only [hpar]
      have hne2 : ∀ pr ∈ pr2 :: rest2, pr.1 ≠ c := by
        intro pr hpr hcon
        exact hcnotin (by rw [← hcon]; exact List.mem_map_of_mem Prod.fst hpr)
      obtain ⟨mds2, hEq, p1, p2, p3⟩ := ih pr2.1 pr2.2 rest2 f
        { ls with
          layerMap := eraseA ls.layerMap c
          metaRecords := eraseA ls.metaRecords c
          driverStores := ls.driverStores.filter (fun x => ¬ x = n.cacheID) }
        stop (depth + 1) (removed ++ [{ chainID := c, diffID := n.diffID, size := sizeGo (eraseA ls.layerMap c) ((eraseA ls.layerMap c).length + 1) { chainID := c, diffID := n.diffID, size := n.size, cacheID := n.cacheID, parent := some pr2.1, referenceCount := 0, references := [] }, diffSize := n.size }])
        (by rfl)
        (by simp at hfuel ⊢; omega)
        (by simpa using hnd.of_cons)
        (by
          intro pr hpr
          show lookupA (eraseA ls.layerMap c) pr.1 = some pr.2
          rw [lookupA_eraseA, if_neg (hne2 pr hpr)]
          exact hlook pr (by simp [hpr]))
        (fun pr hpr => hcid pr (by simp [hpr]))
        (fun pr hpr => hrc pr (by simp [hpr]))
        (fun pr hpr => hrefs pr (by simp [hpr]))
        (fun pr hpr => hcache pr (by simp [hpr]))
        hlink2
        (by
          intro cs ns hs
          obtain ⟨h1, h2, h3⟩ := hstop cs ns hs
          refine ⟨?_, ?_, h3⟩
          · intro hmem
            exact h1 (by simp only [List.map_cons]; exact List.mem_cons_of_mem _ hmem)
          · show lookupA (eraseA ls.layerMap c) cs = some ns
            rw [lookupA_eraseA, if_neg (by intro hcon; exact h1 (by simp [hcon]))]
            exact h2)
        (by intro habs; exact absurd habs (by simp))
      rw [hEq]
      refine ⟨{ chainID := c, diffID := n.diffID, size := sizeGo (eraseA ls.layerMap c) ((eraseA ls.layerMap c).length + 1) { chainID := c, diffID := n.diffID, size := n.size, cacheID := n.cacheID, parent := some pr2.1, referenceCount := 0, references := [] }, diffSize := n.size } :: mds2, ?_, by simp [p1], by simp [p2], by simp [p3]⟩
      simp only [List.map_cons, eraseAll_cons, filterAll_cons, List.append_assoc,
        List.singleton_append, hpar, ne_eq]

/-- C2: releasing the last handle of a node removes it from the index
and deletes its backing store and metadata record, then walks up the
parent chain deleting every ancestor whose count drops to zero,
returning one `Metadata` record per deleted node in child-to-root order;
the walk stops at the first ancestor whose count stays positive, which
is only decremented, leaving it and everything above intact. -/
theorem C2_release_cascade (dFail : List Nat) (ls : layerStore) (l : Layer)
    (n0 : roLayer) (rest : List (Digest × roLayer)) (stop : Option (Digest × roLayer))
    (hlook0 : lookupA ls.layerMap l.chainID = some n0)
    (hrc0 : n0.referenceCount = 1)
    (hrefs0 : n0.references = [l.refID])
    (hcid0 : n0.chainID = l.chainID)
    (hca0 : n0.cacheID ∉ dFail)
    (hnd : (((l.chainID, { n0 with references := [] }) :: rest).map Prod.fst).Nodup)
    (hrest : ∀ pr ∈ rest, lookupA ls.layerMap pr.1 = some pr.2 ∧ pr.2.chainID = pr.1 ∧
      pr.2.referenceCount = 1 ∧ pr.2.references = [] ∧ pr.2.cacheID ∉ dFail)
    (hlink : chainLink ((l.chainID, { n0 with references := [] }) :: rest) stop)
    (hstop : ∀ cs ns, stop = some (cs, ns) →
      cs ∉ ((l.chainID, { n0 with references := [] }) :: rest).map Prod.fst ∧
      lookupA ls.layerMap cs = some ns ∧ 2 ≤ ns.referenceCount) :
    ∃ mds : List Metadata,
      ls.Release dFail l = (.ok mds,
        { ls with
          layerMap := (match stop with
            | none => eraseAll ls.layerMap
                (((l.chainID, { n0 with references := [] }) :: rest).map Prod.fst)
            | some pr => updateA (eraseAll ls.layerMap
                (((l.chainID, { n0 with references := [] }) :: rest).map Prod.fst)) pr.1
                { pr.2 with referenceCount := pr.2.referenceCount - 1 })
          metaRecords := eraseAll ls.metaRecords
            (((l.chainID, { n0 with references := [] }) :: rest).map Prod.fst)
          driverStores := filterAll ls.driverStores
            (((l.chainID, { n0 with references := [] }) :: rest).map
              (fun pr => pr.2.cacheID)) }) ∧
      mds.map Metadata.chainID =
        ((l.chainID, { n0 with references := [] }) :: rest).map Prod.fst ∧
      mds.map Metadata.diffID =
        ((l.chainID, { n0 with references := [] }) :: rest).map (fun pr => pr.2.diffID) ∧
      mds.map Metadata.diffSize =
        ((l.chainID, { n0 with references := [] }) :: rest).map (fun pr => pr.2.size) := by
  have hne : ∀ pr ∈ rest, pr.1 ≠ l.chainID := by
    intro pr hpr hcon
    simp only [List.map_cons, List.nodup_cons] at hnd
    exact hnd.1 (by rw [← hcon]; exact List.mem_map_of_mem Prod.fst hpr)
  have hdelref : n0.deleteReference l.refID = { n0 with references := [] } := by
    simp [roLayer.deleteReference, hrefs0]
  have hlen : ((l.chainID, { n0 with references := [] }) :: rest).length ≤
      ls.layerMap.length := by
    apply dying_length_le _ _ hnd
    intro pr hpr
    rcases List.mem_cons.mp hpr with h | h
    · exact ⟨n0, by rw [h]; exact hlook0⟩
    · exact ⟨pr.2, (hrest pr h).1⟩
  obtain ⟨mds, hEq, p1, p2, p3⟩ := releaseLayerGo_cascade dFail
    ((l.chainID, { n0 with references := [] }) :: rest) l.chainID
    { n0 with references := [] } rest
    ((updateA ls.layerMap l.chainID { n0 with references := [] }).length + 1)
    { ls with layerMap := updateA ls.layerMap l.chainID { n0 with references := [] } }
    stop 0 [] rfl
    (by rw [length_updateA]; simp at hlen ⊢; omega)
    hnd
    (by
      intro pr hpr
      rcases List.mem_cons.mp hpr with h | h
      · rw [h]
        exact lookupA_updateA_self ls.layerMap l.chainID n0 _ hlook0
      · show lookupA (updateA ls.layerMap l.chainID { n0 with references := [] }) pr.1
          = some pr.2
        rw [lookupA_updateA_ne _ _ _ _ (hne pr h)]
        exact (hrest pr h).1)
    (by
      intro pr hpr
      rcases List.mem_cons.mp hpr with h | h
      · rw [h]
        exact hcid0
      · exact (hrest pr h).2.1)
    (by
      intro pr hpr
      rcases List.mem_cons.mp hpr with h | h
      · rw [h]
        exact hrc0
      · exact (hrest pr h).2.2.1)
    (by
      intro pr hpr
      rcases List.mem_cons.mp hpr with h | h
      · rw [h]
      · exact (hrest pr h).2.2.2.1)
    (by
      intro pr hpr
      rcases List.mem_cons.mp hpr with h | h
      · rw [h]
        exact hca0
      · exact (hrest pr h).2.2.2.2)
    hlink
    (by
      intro cs ns hs
      obtain ⟨h1, h2, h3⟩ := hstop cs ns hs
      refine ⟨h1, ?_, h3⟩
      show lookupA (updateA ls.layerMap l.chainID { n0 with references := [] }) cs = some ns
      rw [lookupA_updateA_ne _ _ _ _ (by intro hcon; exact h1 (by simp [hcon]))]
      exact h2)
    (fun _ => rfl)
  refine ⟨mds, ?_, p1, p2, p3⟩
  have hcont : n0.hasReference l.refID = true := by
    simp [roLayer.hasReference, hrefs0]
  simp only [layerStore.Release, hlook0, hcont, if_true, hdelref, releaseLayer]
  rw [hEq]
  simp only [List.nil_append, List.map_cons, eraseAll_cons, filterAll_cons, eraseA_updateA]

def d0W : Digest := .diffD 10

def dd1 : Digest := .diffD 11

def dd2 : Digest := .diffD 12

def c1W : Digest := .chain d0W dd1

def c2W : Digest := .chain c1W dd2

def nRootW : roLayer :=
  { chainID := d0W, diffID := d0W, size := 3, cacheID := 50, parent := none
    referenceCount := 1, references := [] }

def nMidW : roLayer :=
  { chainID := c1W, diffID := dd1, size := 4, cacheID := 51, parent := some d0W
    referenceCount := 1, references := [] }

def nLeafW : roLayer :=
  { chainID := c2W, diffID := dd2, size := 5, cacheID := 52, parent := some c1W
    referenceCount := 1, references := [9] }

/-- A three-layer chain whose only live handle is on the leaf. -/
def storeC2W : layerStore :=
  { layerMap := [(c2W, nLeafW), (c1W, nMidW), (d0W, nRootW)], mounts := []
    metaRecords := [(c2W, ⟨dd2, 5, 52, some c1W⟩), (c1W, ⟨dd1, 4, 51, some d0W⟩), (d0W, ⟨d0W, 3, 50, none⟩)]
    mountRecords := [], driverStores := [50, 51, 52], nextID := 300 }

def cSW : Digest := .chain c1W (.diffD 13)

def nSibW : roLayer :=
  { chainID := cSW, diffID := .diffD 13, size := 2, cacheID := 53, parent := some c1W
    referenceCount := 1, references := [8] }

def nMidW2 : roLayer := { nMidW with referenceCount := 2 }

/-- The same chain where the middle layer also has a second child. -/
def storeC2b : layerStore :=
  { layerMap := [(c2W, nLeafW), (cSW, nSibW), (c1W, nMidW2), (d0W, nRootW)], mounts := []
    metaRecords := [(c2W, ⟨dd2, 5, 52, some c1W⟩), (cSW, ⟨.diffD 13, 2, 53, some c1W⟩), (c1W, ⟨dd1, 4, 51, some d0W⟩), (d0W, ⟨d0W, 3, 50, none⟩)]
    mountRecords := [], driverStores := [50, 51, 52, 53], nextID := 300 }

theorem C2_release_cascade_witness :
    (∃ mds : List Metadata,
      storeC2W.Release [] ⟨c2W, 9⟩ = (.ok mds,
        { storeC2W with layerMap := [], metaRecords := [], driverStores := [] }) ∧
      mds.map Metadata.chainID = [c2W, c1W, d0W] ∧
      mds.map Metadata.diffID = [dd2, dd1, d0W] ∧
      mds.map Metadata.diffSize = [5, 4, 3]) ∧
    (∃ mds : List Metadata,
      storeC2b.Release [] ⟨c2W, 9⟩ = (.ok mds,
        { storeC2b with
          layerMap := [(cSW, nSibW), (c1W, { nMidW with referenceCount := 1 }), (d0W, nRootW)]
          metaRecords := [(cSW, ⟨.diffD 13, 2, 53, some c1W⟩), (c1W, ⟨dd1, 4, 51, some d0W⟩), (d0W, ⟨d0W, 3, 50, none⟩)]
          driverStores := [50, 51, 53] }) ∧
      mds.map Metadata.chainID = [c2W] ∧
      mds.map Metadata.diffID = [dd2] ∧
      mds.map Metadata.diffSize = [5]) := by
  constructor
  · obtain ⟨mds, h1, h2, h3, h4⟩ := C2_release_cascade [] storeC2W ⟨c2W, 9⟩ nLeafW
      [(c1W, nMidW), (d0W, nRootW)] none (by decide) (by decide) (by decide) (by decide)
      (by decide) (by decide) (by decide) ⟨rfl, rfl, rfl⟩
      (by intro cs ns h; exact Option.noConfusion h)
    exact ⟨mds, by rw [h1]; rfl, by simpa using h2, by simpa using h3, by simpa using h4⟩
  · obtain ⟨mds, h1, h2, h3, h4⟩ := C2_release_cascade [] storeC2b ⟨c2W, 9⟩ nLeafW
      [] (some (c1W, nMidW2)) (by decide) (by decide) (by decide) (by decide)
      (by decide) (by decide) (by intro pr hpr; cases hpr) rfl
      (by
        intro cs ns h
        injection h with h'
        rw [Prod.mk.injEq] at h'
        obtain ⟨ha, hb⟩ := h'
        subst ha
        subst hb
        exact ⟨by decide, by decide, by decide⟩)
    exact ⟨mds, by rw [h1]; rfl, by simpa using h2, by simpa using h3, by simpa using h4⟩

/-! ### Reference-count accounting and the release panics (C6) -/

/-- Number of nodes in the index whose parent link names `c`. -/
def childCount (m : List (Digest × roLayer)) (c : Digest) : Nat :=
  (m.filter fun pr => decide (pr.2.parent = some c)).length

/-- The reference-counting contract: every node's count is exactly its
live external handles plus its children present in the index. -/
def refCountWF (m : List (Digest × roLayer)) : Prop :=
  ∀ pr ∈ m, pr.2.referenceCount = pr.2.references.length + childCount m pr.1

theorem childCount_cons (k : Digest) (v : roLayer) (m : List (Digest × roLayer)) (c : Digest) :
    childCount ((k, v) :: m) c =
      (if v.parent = some c then 1 else 0) + childCount m c := by
  by_cases h : v.parent = some c
  · simp [childCount, h, Nat.add_comm]
  · simp [childCount, h]

theorem lookupA_mem_pair {κ α : Type} [DecidableEq κ] (m : List (κ × α)) (k : κ) (v : α)
    (h : lookupA m k = some v) : (k, v) ∈ m := by
  induction m with
  | nil => simp [lookupA] at h
  | cons hd tl ih =>
    obtain ⟨hk, hv⟩ := hd
    by_cases he : hk = k
    · subst he
      simp only [lookupA, eq_self_iff_true, if_true, Option.some.injEq] at h
      subst h
      exact List.mem_cons_self _ _
    · simp only [lookupA, if_neg he] at h
      exact List.mem_cons_of_mem _ (ih h)

theorem map_fst_updateA {κ α : Type} [DecidableEq κ] (m : List (κ × α)) (k : κ) (v : α) :
    (updateA m k v).map Prod.fst = m.map Prod.fst := by
  induction m with
  | nil => simp [updateA]
  | cons hd tl ih =>
    obtain ⟨hk, hv⟩ := hd
    by_cases he : hk = k
    · subst he
      simp [updateA]
    · simp [updateA, he, ih]

theorem mem_updateA {κ α : Type} [DecidableEq κ] (m : List (κ × α)) (k : κ) (v : α)
    (pr : κ × α) (h : pr ∈ updateA m k v) : pr ∈ m ∨ pr = (k, v) := by
  induction m with
  | nil => simp [updateA] at h
  | cons hd tl ih =>
    obtain ⟨hk, hv⟩ := hd
    by_cases he : hk = k
    · subst he
      simp only [updateA, if_pos rfl] at h
      rcases List.mem_cons.mp h with h1 | h1
      · exact Or.inr h1
      · exact Or.inl (List.mem_cons_of_mem _ h1)
    · simp only [updateA, if_neg he] at h
      rcases List.mem_cons.mp h with h1 | h1
      · exact Or.inl (by rw [h1]; exact List.mem_cons_self _ _)
      · rcases ih h1 with h2 | h2
        · exact Or.inl (List.mem_cons_of_mem _ h2)
        · exact Or.inr h2

theorem childCount_updateA (m : List (Digest × roLayer)) (c : Digest) (n v : roLayer)
    (k : Digest) (hl : lookupA m c = some n) (hpar : v.parent = n.parent) :
    childCount (updateA m c v) k = childCount m k := by
  induction m with
  | nil => simp [lookupA] at hl
  | cons hd tl ih =>
    obtain ⟨hk, hv⟩ := hd
    by_cases he : hk = c
    · subst he
      simp only [lookupA, eq_self_iff_true, if_true, Option.some.injEq] at hl
      subst hl
      simp only [updateA, eq_self_iff_true, if_true]
      rw [childCount_cons, childCount_cons, hpar]
    · simp only [lookupA, if_neg he] at hl
      simp only [updateA, if_neg he]
      rw [childCount_cons, childCount_cons, ih hl]

theorem childCount_eraseA (m : List (Digest × roLayer)) (c : Digest) (n : roLayer)
    (k : Digest) (hnd : (m.map Prod.fst).Nodup) (hl : lookupA m c = some n) :
    childCount m k = childCount (eraseA m c) k + (if n.parent = some k then 1 else 0) := by
  induction m with
  | nil => simp [lookupA] at hl
  | cons hd tl ih =>
    obtain ⟨hk, hv⟩ := hd
    simp only [List.map_cons, List.nodup_cons] at hnd
    by_cases he : hk = c
    · subst he
      simp only [lookupA, eq_self_iff_true, if_true, Option.some.injEq] at hl
      subst hl
      have htl : lookupA tl hk = none := by
        cases hlk : lookupA tl hk with
        | none => rfl
        | some w => exact absurd (lookupA_mem tl hk w hlk) hnd.1
      have her : eraseA ((hk, hv) :: tl) hk = eraseA tl hk := by
        simp [eraseA]
      rw [her, eraseA_of_lookup_none tl hk htl, childCount_cons]
      exact Nat.add_comm _ _
    · simp only [lookupA, if_neg he] at hl
      have her : eraseA ((hk, hv) :: tl) c = (hk, hv) :: eraseA tl c := by
        simp [eraseA, he]
      rw [childCount_cons, her, childCount_cons, ih hnd.2 hl]
      exact (Nat.add_assoc _ _ _).symm

theorem nodup_eraseA (m : List (Digest × roLayer)) (c : Digest)
    (hnd : (m.map Prod.fst).Nodup) : ((eraseA m c).map Prod.fst).Nodup :=
  hnd.sublist (List.Sublist.map Prod.fst (List.filter_sublist m))

/-- The fatal "cannot remove layer with child" guard is dead code: the
depth counter only advances after a deletion was recorded in `removed`,
so `removed` is nonempty whenever `depth > 0` and the guard never
fires. -/
theorem releaseLayerGo_no_child_panic (dFail : List Nat) :
    ∀ (fuel : Nat) (ls : layerStore) (c : Digest) (depth : Nat) (removed : List Metadata),
      (removed = [] → depth = 0) →
      (releaseLayerGo dFail fuel ls c depth removed).1 ≠ .error .panicRemoveWithChild := by
  intro fuel
  induction fuel with
  | zero =>
    intro ls c depth removed _
    simp [releaseLayerGo]
  | succ f ih =>
    intro ls c depth removed hdep
    simp only [releaseLayerGo]
    split
    · simp
    · split
      · simp
      · split
        · simp
        · split
          · rename_i hguard
            exfalso
            rw [Bool.and_eq_true] at hguard
            have h1 : removed = [] := by simpa using hguard.1
            have h2 : 0 < depth := by simpa using hguard.2
            rw [hdep h1] at h2
            exact Nat.lt_irrefl 0 h2
          · split
            · simp
            · split
              · rename_i e ls3 heq
                simp only [deleteLayer] at heq
                split at heq
                · rw [Prod.mk.injEq] at heq
                  rw [← Except.error.inj heq.1]
                  simp
                · rw [Prod.mk.injEq] at heq
                  exact absurd heq.1 (by simp)
              · split
                · simp
                · exact ih _ _ _ _ (by intro hcon; exact absurd hcon (by simp))

/-- Under the reference-count accounting contract (relativised to the
node being released, whose pending decrement stands for its just-removed
handle or child), the cascade never hits the "layer not retained" or
"cannot delete referenced layer" assertions. -/
theorem releaseLayerGo_wf_no_panic (dFail : List Nat) :
    ∀ (fuel : Nat) (ls : layerStore) (c : Digest) (depth : Nat) (removed : List Metadata),
      (ls.layerMap.map Prod.fst).Nodup →
      (∀ pr ∈ ls.layerMap, pr.1 ≠ c →
        pr.2.referenceCount = pr.2.references.length + childCount ls.layerMap pr.1) →
      (∀ p, lookupA ls.layerMap c = some p →
        p.referenceCount = p.references.length + childCount ls.layerMap c + 1) →
      (releaseLayerGo dFail fuel ls c depth removed).1 ≠ .error .panicNotRetained ∧
      (releaseLayerGo dFail fuel ls c depth removed).1 ≠ .error .panicDeleteReferenced := by
  intro fuel
  induction fuel with
  | zero =>
    intro ls c depth removed _ _ _
    exact ⟨by simp [releaseLayerGo], by simp [releaseLayerGo]⟩
  | succ f ih =>
    intro ls c depth removed hnd hinv hinvc
    simp only [releaseLayerGo]
    split
    · exact ⟨by simp, by simp⟩
    · rename_i n heq
      have hrc := hinvc n heq
      split
      · rename_i h0
        exact absurd h0 (by omega)
      · rename_i h0
        split
        · exact ⟨by simp, by simp⟩
        · rename_i h1
          have hlen : n.references.length = 0 ∧ childCount ls.layerMap c = 0 := by omega
          have hrefs : n.references = [] := List.length_eq_zero.mp hlen.1
          split
          · exact ⟨by simp, by simp⟩
          · split
            · rename_i href
              exact absurd href (by simp [roLayer.hasReferences, hrefs])
            · split
              · rename_i e ls3 heqd
                simp only [deleteLayer] at heqd
                split at heqd
                · rw [Prod.mk.injEq] at heqd
                  rw [← Except.error.inj heqd.1]
                  exact ⟨by simp, by simp⟩
                · rw [Prod.mk.injEq] at heqd
                  exact absurd heqd.1 (by simp)
              · rename_i md ls3 heqd
                split
                · exact ⟨by simp, by simp⟩
                · rename_i pc hp
                  have hp' : n.parent = some pc := hp
                  simp only [deleteLayer] at heqd
                  split at heqd
                  · rw [Prod.mk.injEq] at heqd
                    exact absurd heqd.1 (by simp)
                  · rw [Prod.mk.injEq] at heqd
                    rw [← heqd.2, eraseA_updateA]
                    refine ih _ pc (depth + 1) _ ?_ ?_ ?_
                    · show ((eraseA ls.layerMap c).map Prod.fst).Nodup
                      exact nodup_eraseA ls.layerMap c hnd
                    · show ∀ pr ∈ eraseA ls.layerMap c, pr.1 ≠ pc →
                        pr.2.referenceCount = pr.2.references.length +
                          childCount (eraseA ls.layerMap c) pr.1
                      intro pr hpr hne
                      have hprm : pr ∈ ls.layerMap := List.mem_of_mem_filter hpr
                      have hprc : pr.1 ≠ c := by
                        have := List.of_mem_filter hpr
                        simpa using this
                      have h1' := hinv pr hprm hprc
                      have h2' := childCount_eraseA ls.layerMap c n pr.1 hnd heq
                      rw [hp'] at h2'
                      rw [if_neg (show ¬ (some pc = some pr.1) from by simpa using Ne.symm hne)] at h2'
                      omega
                    · show ∀ p, lookupA (eraseA ls.layerMap c) pc = some p →
                        p.referenceCount = p.references.length +
                          childCount (eraseA ls.layerMap c) pc + 1
                      intro p hlp
                      rw [lookupA_eraseA] at hlp
                      by_cases hpcc : pc = c
                      · rw [if_pos hpcc] at hlp
                        exact absurd hlp (by simp)
                      · rw [if_neg hpcc] at hlp
                        have hmem := lookupA_mem_pair ls.layerMap pc p hlp
                        have h1' : p.referenceCount = p.references.length +
                            childCount ls.layerMap pc := hinv (pc, p) hmem hpcc
                        have h2' := childCount_eraseA ls.layerMap c n pc hnd heq
                        rw [hp', if_pos rfl] at h2'
                        omega

/-- C6 (amended): reference-count corruption is fatal for underflow and
live referrers, but not for a surviving child.  Releasing a node whose
count is already zero hits the "layer not retained" assertion; a node
whose count drops to zero while external handles remain hits the
"cannot delete referenced layer" assertion; but the "cannot remove layer
with child" assertion is dead code — no `Release` can ever produce it,
because the depth counter only advances together with a recorded
deletion — and under the reference-count accounting contract (each
node's count equals its live handles plus its children in the index) the
two reachable assertions never fire either. -/
theorem C6_release_panics_amended :
    (∀ (dFail : List Nat) (ls : layerStore) (l : Layer) (n : roLayer),
      lookupA ls.layerMap l.chainID = some n → n.hasReference l.refID = true →
      n.referenceCount = 0 →
      (ls.Release dFail l).1 = .error .panicNotRetained) ∧
    (∀ (dFail : List Nat) (ls : layerStore) (l : Layer) (n : roLayer),
      lookupA ls.layerMap l.chainID = some n → n.hasReference l.refID = true →
      n.referenceCount = 1 → n.references.erase l.refID ≠ [] →
      (ls.Release dFail l).1 = .error .panicDeleteReferenced) ∧
    (∀ (dFail : List Nat) (ls : layerStore) (l : Layer),
      (ls.Release dFail l).1 ≠ .error .panicRemoveWithChild) ∧
    (∀ (dFail : List Nat) (ls : layerStore) (l : Layer),
      (ls.layerMap.map Prod.fst).Nodup → refCountWF ls.layerMap →
      (ls.Release dFail l).1 ≠ .error .panicNotRetained ∧
      (ls.Release dFail l).1 ≠ .error .panicDeleteReferenced) := by
  refine ⟨?_, ?_, ?_, ?_⟩
  · intro dFail ls l n hlook hhref h0
    have hupd := lookupA_updateA_self ls.layerMap l.chainID n (n.deleteReference l.refID) hlook
    simp only [layerStore.Release, hlook, hhref, eq_self_iff_true, if_true, releaseLayer]
    simp only [releaseLayerGo, hupd]
    rw [if_pos (show (n.deleteReference l.refID).referenceCount = 0 from h0)]
  · intro dFail ls l n hlook hhref h1 hne
    have hupd := lookupA_updateA_self ls.layerMap l.chainID n (n.deleteReference l.refID) hlook
    simp only [layerStore.Release, hlook, hhref, eq_self_iff_true, if_true, releaseLayer]
    simp only [releaseLayerGo, hupd]
    split
    · rename_i h0
      have h0' : n.referenceCount = 0 := h0
      omega
    · split
      · rename_i hz
        have hz' : ¬ n.referenceCount - 1 = 0 := fun h => hz h
        omega
      · split
        · rename_i hg
          exact absurd hg (by decide)
        · split
          · rfl
          · rename_i hr
            refine absurd ?_ hr
            show (!(n.references.erase l.refID).isEmpty) = true
            cases hcase : n.references.erase l.refID with
            | nil => exact absurd hcase hne
            | cons a as => rfl
  · intro dFail ls l
    simp only [layerStore.Release]
    split
    · simp
    · split
      · simp only [releaseLayer]
        exact releaseLayerGo_no_child_panic dFail _ _ _ _ _ (fun _ => rfl)
      · simp
  · intro dFail ls l hnd hwf
    simp only [layerStore.Release]
    split
    · exact ⟨by simp, by simp⟩
    · rename_i node heqn
      split
      · rename_i hhref
        have hmemref : l.refID ∈ node.references := by
          have hc : node.references.contains l.refID = true := hhref
          simpa using hc
        simp only [releaseLayer]
        refine releaseLayerGo_wf_no_panic dFail _ _ _ _ _ ?_ ?_ ?_
        · show ((updateA ls.layerMap l.chainID (node.deleteReference l.refID)).map
            Prod.fst).Nodup
          rw [map_fst_updateA]
          exact hnd
        · show ∀ pr ∈ updateA ls.layerMap l.chainID (node.deleteReference l.refID),
            pr.1 ≠ l.chainID → pr.2.referenceCount = pr.2.references.length +
              childCount (updateA ls.layerMap l.chainID (node.deleteReference l.refID)) pr.1
          intro pr hpr hne
          rcases mem_updateA _ _ _ pr hpr with hm | hm
          · have h1' := hwf pr hm
            have h2' := childCount_updateA ls.layerMap l.chainID node
              (node.deleteReference l.refID) pr.1 heqn rfl
            rw [h2']
            exact h1'
          · exact absurd (by rw [hm]) hne
        · show ∀ p, lookupA (updateA ls.layerMap l.chainID (node.deleteReference l.refID))
              l.chainID = some p →
            p.referenceCount = p.references.length +
              childCount (updateA ls.layerMap l.chainID (node.deleteReference l.refID))
                l.chainID + 1
          intro p hlp
          have hupd := lookupA_updateA_self ls.layerMap l.chainID node
            (node.deleteReference l.refID) heqn
          rw [hupd] at hlp
          have hpe : p = node.deleteReference l.refID := (Option.some.inj hlp).symm
          subst hpe
          have h1' : node.referenceCount = node.references.length +
              childCount ls.layerMap l.chainID :=
            hwf (l.chainID, node) (lookupA_mem_pair _ _ _ heqn)
          have h2' := childCount_updateA ls.layerMap l.chainID node
            (node.deleteReference l.refID) l.chainID heqn rfl
          have h3' : (node.references.erase l.refID).length =
              node.references.length - 1 := List.length_erase_of_mem hmemref
          have h4' : 0 < node.references.length := List.length_pos_of_mem hmemref
          show node.referenceCount = (node.references.erase l.refID).length +
            childCount (updateA ls.layerMap l.chainID (node.deleteReference l.refID))
              l.chainID + 1
          omega
      · exact ⟨by simp, by simp⟩

def dPW : Digest := .diffD 20

def dXW : Digest := .diffD 21

def dCW : Digest := .chain dPW dXW

def nParC6 : roLayer :=
  { chainID := dPW, diffID := dPW, size := 4, cacheID := 60, parent := none
    referenceCount := 1, references := [3] }

def nChildC6 : roLayer :=
  { chainID := dCW, diffID := dXW, size := 2, cacheID := 61, parent := some dPW
    referenceCount := 1, references := [4] }

/-- A corrupted store violating the accounting contract: the parent's
count omits the contribution of its child present in the index. -/
def storeC6 : layerStore :=
  { layerMap := [(dPW, nParC6), (dCW, nChildC6)], mounts := []
    metaRecords := [(dPW, ⟨dPW, 4, 60, none⟩), (dCW, ⟨dXW, 2, 61, some dPW⟩)]
    mountRecords := [], driverStores := [60, 61], nextID := 400 }

def storeC6after : layerStore :=
  { layerMap := [(dCW, nChildC6)], mounts := []
    metaRecords := [(dCW, ⟨dXW, 2, 61, some dPW⟩)]
    mountRecords := [], driverStores := [61], nextID := 400 }

/-- C6 counterexample: the claim (and spec) say releasing a node that
still has a child in the index is fatal.  It is not: the guard
`len(removed) == 0 && depth > 0` can never fire, so the parent here is
deleted silently, the call succeeds, and the child is left behind with a
dangling parent link. -/
theorem C6_counterexample_child_not_fatal :
    storeC6.Release [] ⟨dPW, 3⟩ =
      (.ok [{ chainID := dPW, diffID := dPW, size := 4, diffSize := 4 }], storeC6after) ∧
    lookupA storeC6.layerMap dCW = some nChildC6 ∧
    nChildC6.parent = some dPW ∧
    lookupA storeC6after.layerMap dPW = none ∧
    lookupA storeC6after.layerMap dCW = some nChildC6 :=
  ⟨rfl, rfl, rfl, rfl, rfl⟩

def storeC6z : layerStore :=
  { layerMap := [(dPW, { nParC6 with referenceCount := 0 })], mounts := []
    metaRecords := [(dPW, ⟨dPW, 4, 60, none⟩)]
    mountRecords := [], driverStores := [60], nextID := 400 }

def nRefC6 : roLayer := { nParC6 with references := [3, 4] }

def storeC6r : layerStore :=
  { layerMap := [(dPW, nRefC6)], mounts := []
    metaRecords := [(dPW, ⟨dPW, 4, 60, none⟩)]
    mountRecords := [], driverStores := [60], nextID := 400 }

def nParC6w : roLayer :=
  { chainID := dPW, diffID := dPW, size := 4, cacheID := 60, parent := none
    referenceCount := 1, references := [] }

def nChildC6w : roLayer :=
  { chainID := dCW, diffID := dXW, size := 2, cacheID := 61, parent := some dPW
    referenceCount := 1, references := [3] }

/-- A store satisfying the reference-count accounting contract. -/
def storeC6w : layerStore :=
  { layerMap := [(dPW, nParC6w), (dCW, nChildC6w)], mounts := []
    metaRecords := [(dPW, ⟨dPW, 4, 60, none⟩), (dCW, ⟨dXW, 2, 61, some dPW⟩)]
    mountRecords := [], driverStores := [60, 61], nextID := 400 }

theorem C6_release_panics_amended_witness :
    (storeC6z.Release [] ⟨dPW, 3⟩).1 = .error .panicNotRetained ∧
    (storeC6r.Release [] ⟨dPW, 3⟩).1 = .error .panicDeleteReferenced ∧
    (storeC6.Release [] ⟨dPW, 3⟩).1 ≠ .error .panicRemoveWithChild ∧
    ((storeC6w.Release [] ⟨dCW, 3⟩).1 ≠ .error .panicNotRetained ∧
      (storeC6w.Release [] ⟨dCW, 3⟩).1 ≠ .error .panicDeleteReferenced) := by
  refine ⟨?_, ?_, ?_, ?_⟩
  · exact C6_release_panics_amended.1 [] storeC6z ⟨dPW, 3⟩
      { nParC6 with referenceCount := 0 } rfl rfl rfl
  · exact C6_release_panics_amended.2.1 [] storeC6r ⟨dPW, 3⟩ nRefC6 rfl rfl rfl (by decide)
  · exact C6_release_panics_amended.2.2.1 [] storeC6 ⟨dPW, 3⟩
  · exact C6_release_panics_amended.2.2.2 [] storeC6w ⟨dCW, 3⟩ (by decide) (by unfold refCountWF; decide)

/-! ### Store construction from persisted records (C7) -/

/-- The parent chain ID persisted for a layer record. -/
def parentOfRec (recs : List (Digest × LayerRecord)) (c : Digest) : Option Digest :=
  (lookupA recs c).bind LayerRecord.parent

/-- The parent chain ID persisted for a mount record. -/
def mountParentOfRec (mrecs : List (String × MountRecord)) (nm : String) : Option Digest :=
  (lookupA mrecs nm).bind MountRecord.parent

/-- A partially loaded layer map is sound for the records: every entry
carries the fields of its persisted record, holds no external handles,
and its parent (if any) is already in the map. -/
def loadedMapWF (recs : List (Digest × LayerRecord)) (m : List (Digest × roLayer)) : Prop :=
  (∀ pr ∈ m, ∃ r, lookupA recs pr.1 = some r ∧ pr.2.chainID = pr.1 ∧
    pr.2.diffID = r.diffID ∧ pr.2.size = r.size ∧ pr.2.cacheID = r.cacheID ∧
    pr.2.parent = r.parent ∧ pr.2.references = []) ∧
  (∀ pr ∈ m, ∀ pc, pr.2.parent = some pc → pc ∈ m.map Prod.fst)

theorem lookupA_eq_none_iff {κ α : Type} [DecidableEq κ] (m : List (κ × α)) (k : κ) :
    lookupA m k = none ↔ k ∉ m.map Prod.fst := by
  induction m with
  | nil => simp [lookupA]
  | cons hd tl ih =>
    obtain ⟨hk, hv⟩ := hd
    by_cases he : hk = k
    · subst he
      simp [lookupA]
    · simp [lookupA, he, ih, Ne.symm he]

theorem lookupA_isSome_of_mem {κ α : Type} [DecidableEq κ] (m : List (κ × α)) (k : κ)
    (h : k ∈ m.map Prod.fst) : ∃ v, lookupA m k = some v := by
  cases hl : lookupA m k with
  | none => exact absurd h ((lookupA_eq_none_iff m k).mp hl)
  | some v => exact ⟨v, rfl⟩

/-- `loadLayer` on sound records: the load succeeds, the chain is
inserted memoized, existing entries are untouched, and every newly
inserted ancestor starts with reference count zero. -/
theorem loadLayerGo_wf (recs : List (Digest × LayerRecord)) (rank : Digest → Nat)
    (hrank : ∀ c r pc, lookupA recs c = some r → r.parent = some pc → rank pc < rank c)
    (hclosed : ∀ c r pc, lookupA recs c = some r → r.parent = some pc →
      pc ∈ recs.map Prod.fst) :
    ∀ (fuel : Nat) (c : Digest) (m : List (Digest × roLayer)),
      rank c < fuel → c ∈ recs.map Prod.fst →
      loadedMapWF recs m → (m.map Prod.fst).Nodup →
      ∃ n m1, loadLayerGo recs fuel m c = (some n, m1) ∧
        lookupA m1 c = some n ∧
        loadedMapWF recs m1 ∧ (m1.map Prod.fst).Nodup ∧
        (∀ k v, lookupA m k = some v → lookupA m1 k = some v) ∧
        (∀ k v, lookupA m1 k = some v → lookupA m k = some v ∨
          (lookupA m k = none ∧ v.referenceCount = 0 ∧ rank k ≤ rank c)) := by
  intro fuel
  induction fuel with
  | zero =>
    intro c m hfuel _ _ _
    exact absurd hfuel (Nat.not_lt_zero _)
  | succ f ih =>
    intro c m hfuel hmem hwf hnd
    cases hmc : lookupA m c with
    | some cl =>
      refine ⟨cl, m, ?_, hmc, hwf, hnd, fun k v h => h, fun k v h => Or.inl h⟩
      simp [loadLayerGo, hmc]
    | none =>
      obtain ⟨r, hr⟩ := lookupA_isSome_of_mem recs c hmem
      cases hp : r.parent with
      | none =>
        simp only [loadLayerGo, hmc, hr, hp]
        refine ⟨_, _, rfl, lookupA_cons_self c _ m, ⟨?_, ?_⟩, ?_, ?_, ?_⟩
        · intro pr hpr
          rcases List.mem_cons.mp hpr with h | h
          · exact ⟨r, by rw [h]; exact hr, by rw [h], by rw [h], by rw [h], by rw [h],
              by rw [h, hp], by rw [h]⟩
          · exact hwf.1 pr h
        · intro pr hpr pc hpc
          rcases List.mem_cons.mp hpr with h | h
          · rw [h] at hpc
            exact absurd hpc (by simp)
          · exact List.mem_cons_of_mem _ (hwf.2 pr h pc hpc)
        · simp only [List.map_cons, List.nodup_cons]
          exact ⟨(lookupA_eq_none_iff m c).mp hmc, hnd⟩
        · intro k v h
          have hkc : k ≠ c := by
            intro hcon
            rw [hcon, hmc] at h
            exact Option.noConfusion h
          simpa [lookupA, Ne.symm hkc] using h
        · intro k v h
          by_cases hkc : k = c
          · subst hkc
            simp only [lookupA, eq_self_iff_true, if_true, Option.some.injEq] at h
            exact Or.inr ⟨hmc, by rw [← h], Nat.le_refl _⟩
          · simp only [lookupA, if_neg (Ne.symm hkc)] at h
            exact Or.inl h
      | some pc =>
        have hrpc : rank pc < rank c := hrank c r pc hr hp
        have hpcm : pc ∈ recs.map Prod.fst := hclosed c r pc hr hp
        obtain ⟨p, m1, heqload, hlkp, hwf1, hnd1, hpres1, hnew1⟩ :=
          ih pc m (by omega) hpcm hwf hnd
        simp only [loadLayerGo, hmc, hr, hp, heqload]
        have hm1c : lookupA m1 c = none := by
          cases hl1 : lookupA m1 c with
          | none => rfl
          | some w =>
            rcases hnew1 c w hl1 with h | h
            · rw [hmc] at h
              exact Option.noConfusion h
            · exact absurd h.2.2 (by omega)
        refine ⟨_, _, rfl, lookupA_cons_self c _ m1, ⟨?_, ?_⟩, ?_, ?_, ?_⟩
        · intro pr hpr
          rcases List.mem_cons.mp hpr with h | h
          · exact ⟨r, by rw [h]; exact hr, by rw [h], by rw [h], by rw [h], by rw [h],
              by rw [h, hp], by rw [h]⟩
          · exact hwf1.1 pr h
        · intro pr hpr pc2 hpc2
          rcases List.mem_cons.mp hpr with h | h
          · rw [h] at hpc2
            simp only [Option.some.injEq] at hpc2
            exact List.mem_cons_of_mem _ (by rw [← hpc2]; exact lookupA_mem m1 pc p hlkp)
          · exact List.mem_cons_of_mem _ (hwf1.2 pr h pc2 hpc2)
        · simp only [List.map_cons, List.nodup_cons]
          exact ⟨(lookupA_eq_none_iff m1 c).mp hm1c, hnd1⟩
        · intro k v h
          have hm1k := hpres1 k v h
          have hkc : k ≠ c := by
            intro hcon
            rw [hcon, hm1c] at hm1k
            exact Option.noConfusion hm1k
          simpa [lookupA, Ne.symm hkc] using hm1k
        · intro k v h
          by_cases hkc : k = c
          · subst hkc
            simp only [lookupA, eq_self_iff_true, if_true, Option.some.injEq] at h
            exact Or.inr ⟨hmc, by rw [← h], Nat.le_refl _⟩
          · simp only [lookupA, if_neg (Ne.symm hkc)] at h
            rcases hnew1 k v h with h2 | h2
            · exact Or.inl h2
            · exact Or.inr ⟨h2.1, h2.2.1, by omega⟩

/-- Counting per key versus counting per record: with unique keys, the
number of listed chain IDs whose record points at `c` equals the number
of records pointing at `c`. -/
theorem count_bind_keys {κ β : Type} [DecidableEq κ] (recs : List (κ × β))
    (f : β → Option Digest) (c : Digest) (hnd : (recs.map Prod.fst).Nodup) :
    ((recs.map Prod.fst).filter fun k => decide ((lookupA recs k).bind f = some c)).length
      = (recs.filter fun pr => decide (f pr.2 = some c)).length := by
  induction recs with
  | nil => simp
  | cons hd tl ih =>
    obtain ⟨hk, hv⟩ := hd
    simp only [List.map_cons, List.nodup_cons] at hnd
    have hcongr : ∀ k ∈ tl.map Prod.fst,
        decide ((if hk = k then some hv else lookupA tl k).bind f = some c)
          = decide ((lookupA tl k).bind f = some c) := by
      intro k hkm
      have hne : hk ≠ k := fun hcon => hnd.1 (hcon ▸ hkm)
      rw [if_neg hne]
    by_cases hc : f hv = some c
    · simp only [List.map_cons, List.filter_cons, lookupA, eq_self_iff_true, if_true,
        Option.some_bind, hc, decide_True, List.length_cons]
      rw [List.filter_congr hcongr, ih hnd.2]
    · simp only [List.map_cons, List.filter_cons, lookupA, eq_self_iff_true, if_true,
        Option.some_bind, hc, decide_False, Bool.false_eq_true, if_false]
      rw [List.filter_congr hcongr]
      exact ih hnd.2

/-- The layer loop of `newStoreFromGraphDriver` on sound records: after
processing `todo`, every map entry's count equals its initial credit
plus one per processed chain ID whose record names it as parent. -/
theorem loadAllLayers_count (recs : List (Digest × LayerRecord)) (rank : Digest → Nat)
    (hrank : ∀ c r pc, lookupA recs c = some r → r.parent = some pc → rank pc < rank c)
    (hclosed : ∀ c r pc, lookupA recs c = some r → r.parent = some pc →
      pc ∈ recs.map Prod.fst) :
    ∀ (todo : List Digest) (m : List (Digest × roLayer)) (cnt : Digest → Nat),
      (∀ id ∈ todo, id ∈ recs.map Prod.fst) →
      (∀ id ∈ todo, rank id < recs.length + 1) →
      loadedMapWF recs m → (m.map Prod.fst).Nodup →
      (∀ k v, lookupA m k = some v → v.referenceCount = cnt k) →
      (∀ k, lookupA m k = none → cnt k = 0) →
      loadedMapWF recs (loadAllLayers recs todo m) ∧
      ((loadAllLayers recs todo m).map Prod.fst).Nodup ∧
      (∀ k v, lookupA m k = some v → ∃ v1,
        lookupA (loadAllLayers recs todo m) k = some v1) ∧
      (∀ id ∈ todo, id ∈ (loadAllLayers recs todo m).map Prod.fst) ∧
      (∀ k v, lookupA (loadAllLayers recs todo m) k = some v →
        v.referenceCount = cnt k +
          (todo.filter fun id => decide (parentOfRec recs id = some k)).length) := by
  intro todo
  induction todo with
  | nil =>
    intro m cnt _ _ hwf hnd hcnt _
    refine ⟨hwf, hnd, fun k v h => ⟨v, h⟩, by simp, ?_⟩
    intro k v h
    simpa using hcnt k v h
  | cons id rest ih =>
    intro m cnt hmem hrb hwf hnd hcnt hfresh
    have hidm : id ∈ recs.map Prod.fst := hmem id (List.mem_cons_self _ _)
    have hidr : rank id < recs.length + 1 := hrb id (List.mem_cons_self _ _)
    obtain ⟨l, m1, heqload, hlkl, hwf1, hnd1, hpres1, hnew1⟩ :=
      loadLayerGo_wf recs rank hrank hclosed (recs.length + 1) id m hidr hidm hwf hnd
    have hcnt1 : ∀ k v, lookupA m1 k = some v → v.referenceCount = cnt k := by
      intro k v h
      rcases hnew1 k v h with h2 | h2
      · exact hcnt k v h2
      · rw [h2.2.1, hfresh k h2.1]
    have hfresh1 : ∀ k, lookupA m1 k = none → cnt k = 0 := by
      intro k h
      cases hmk : lookupA m k with
      | none => exact hfresh k hmk
      | some v => rw [hpres1 k v hmk] at h; exact Option.noConfusion h
    have hlparent : l.parent = parentOfRec recs id := by
      obtain ⟨r, hr, _, _, _, _, hpar, _⟩ :=
        hwf1.1 (id, l) (lookupA_mem_pair m1 id l hlkl)
      rw [parentOfRec, hr, Option.some_bind, hpar]
    cases hp : l.parent with
    | none =>
      have hstep : loadAllLayers recs (id :: rest) m = loadAllLayers recs rest m1 := by
        simp only [loadAllLayers, heqload, hp]
      obtain ⟨c1, c2, c3, c4, c5⟩ := ih m1 cnt
        (fun i hi => hmem i (List.mem_cons_of_mem _ hi))
        (fun i hi => hrb i (List.mem_cons_of_mem _ hi)) hwf1 hnd1 hcnt1 hfresh1
      rw [hstep]
      refine ⟨c1, c2, ?_, ?_, ?_⟩
      · intro k v h
        exact c3 k _ (hpres1 k v h)
      · intro i hi
        rcases List.mem_cons.mp hi with h | h
        · rw [h]
          obtain ⟨w, hw⟩ := c3 id l hlkl
          exact lookupA_mem _ _ _ hw
        · exact c4 i h
      · intro k v h
        rw [c5 k v h]
        have hpk : decide (parentOfRec recs id = some k) = false := by
          rw [← hlparent, hp]
          simp
        simp [List.filter_cons, hpk]
    | some pc =>
      have hpcm : pc ∈ m1.map Prod.fst :=
        hwf1.2 (id, l) (lookupA_mem_pair m1 id l hlkl) pc hp
      obtain ⟨p, hlp⟩ := lookupA_isSome_of_mem m1 pc hpcm
      have hstep : loadAllLayers recs (id :: rest) m =
          loadAllLayers recs rest
            (updateA m1 pc { p with referenceCount := p.referenceCount + 1 }) := by
        simp only [loadAllLayers, heqload, hp, hlp]
      set m2 := updateA m1 pc { p with referenceCount := p.referenceCount + 1 } with hm2
      have hwf2 : loadedMapWF recs m2 := by
        constructor
        · intro pr hpr
          rcases mem_updateA _ _ _ pr hpr with h | h
          · exact hwf1.1 pr h
          · obtain ⟨r, hr, e1, e2, e3, e4, e5, e6⟩ :=
              hwf1.1 (pc, p) (lookupA_mem_pair m1 pc p hlp)
            exact ⟨r, by rw [h]; exact hr, by rw [h]; exact e1, by rw [h]; exact e2,
              by rw [h]; exact e3, by rw [h]; exact e4, by rw [h]; exact e5,
              by rw [h]; exact e6⟩
        · intro pr hpr pc2 hpc2
          rw [hm2, map_fst_updateA]
          rcases mem_updateA _ _ _ pr hpr with h | h
          · exact hwf1.2 pr h pc2 hpc2
          · refine hwf1.2 (pc, p) (lookupA_mem_pair m1 pc p hlp) pc2 ?_
            rw [h] at hpc2
            exact hpc2
      have hnd2 : (m2.map Prod.fst).Nodup := by
        rw [hm2, map_fst_updateA]
        exact hnd1
      have hcnt2 : ∀ k v, lookupA m2 k = some v →
          v.referenceCount = cnt k + (if parentOfRec recs id = some k then 1 else 0) := by
        intro k v h
        by_cases hk : k = pc
        · subst hk
          have hupd := lookupA_updateA_self m1 k p
            { p with referenceCount := p.referenceCount + 1 } hlp
          rw [hm2] at h
          rw [hupd] at h
          have hv : v = { p with referenceCount := p.referenceCount + 1 } :=
            (Option.some.inj h).symm
          rw [hv]
          rw [if_pos (by rw [← hlparent, hp])]
          have := hcnt1 k p hlp
          simp only []
          omega
        · rw [hm2, lookupA_updateA_ne _ _ _ _ (Ne.symm (fun hcon => hk hcon.symm))] at h
          rw [if_neg (by rw [← hlparent, hp]; simpa using fun hcon => hk hcon.symm)]
          simp only [Nat.add_zero]
          exact hcnt1 k v h
      have hfresh2 : ∀ k, lookupA m2 k = none →
          cnt k + (if parentOfRec recs id = some k then 1 else 0) = 0 := by
        intro k h
        by_cases hk : k = pc
        · subst hk
          have hupd := lookupA_updateA_self m1 k p
            { p with referenceCount := p.referenceCount + 1 } hlp
          rw [hm2, hupd] at h
          exact Option.noConfusion h
        · rw [hm2, lookupA_updateA_ne _ _ _ _ (Ne.symm (fun hcon => hk hcon.symm))] at h
          rw [if_neg (by rw [← hlparent, hp]; simpa using fun hcon => hk hcon.symm)]
          simp only [Nat.add_zero]
          exact hfresh1 k h
      obtain ⟨c1, c2, c3, c4, c5⟩ := ih m2
        (fun k => cnt k + (if parentOfRec recs id = some k then 1 else 0))
        (fun i hi => hmem i (List.mem_cons_of_mem _ hi))
        (fun i hi => hrb i (List.mem_cons_of_mem _ hi)) hwf2 hnd2 hcnt2 hfresh2
      rw [hstep]
      refine ⟨c1, c2, ?_, ?_, ?_⟩
      · intro k v h
        have h1 := hpres1 k v h
        by_cases hk : k = pc
        · subst hk
          exact c3 k _ (lookupA_updateA_self m1 k p _ hlp)
        · refine c3 k v ?_
          rw [hm2, lookupA_updateA_ne _ _ _ _ (Ne.symm (fun hcon => hk hcon.symm))]
          exact h1
      · intro i hi
        rcases List.mem_cons.mp hi with h | h
        · rw [h]
          have hidm2 : lookupA m2 id = some l ∨ id = pc := by
            by_cases hk : id = pc
            · exact Or.inr hk
            · refine Or.inl ?_
              rw [hm2, lookupA_updateA_ne _ _ _ _ (Ne.symm (fun hcon => hk hcon.symm))]
              exact hlkl
          rcases hidm2 with h2 | h2
          · obtain ⟨w, hw⟩ := c3 id l h2
            exact lookupA_mem _ _ _ hw
          · obtain ⟨w, hw⟩ := c3 id _ (by
              rw [h2]
              exact lookupA_updateA_self m1 pc p _ hlp)
            exact lookupA_mem _ _ _ hw
        · exact c4 i h
      · intro k v h
        rw [c5 k v h]
        by_cases hpk : parentOfRec recs id = some k
        · simp [List.filter_cons, hpk]
          omega
        · simp [List.filter_cons, hpk]

/-- A memoized hit: loading an already-indexed chain ID returns the
in-memory node and leaves the map untouched. -/
theorem loadLayerGo_hit (recs : List (Digest × LayerRecord)) (f : Nat)
    (m : List (Digest × roLayer)) (c : Digest) (p : roLayer)
    (h : lookupA m c = some p) : loadLayerGo recs (f + 1) m c = (some p, m) := by
  simp [loadLayerGo, h]

/-- The mount loop of `newStoreFromGraphDriver` with all layers already
loaded: each mount's parent gains exactly one count, and no layer entry
is created, removed, or otherwise altered. -/
theorem loadAllMounts_count (recs : List (Digest × LayerRecord))
    (mrecs : List (String × MountRecord))
    (hmid : ∀ pr ∈ mrecs, pr.2.mountID.isSome)
    (hmpar : ∀ pr ∈ mrecs, ∀ pc, pr.2.parent = some pc → pc ∈ recs.map Prod.fst) :
    ∀ (todo : List String) (m : List (Digest × roLayer))
      (mounts : List (String × mountedLayer)) (cnt : Digest → Nat),
      todo.Nodup →
      (∀ nm ∈ todo, nm ∈ mrecs.map Prod.fst) →
      (∀ nm ∈ todo, lookupA mounts nm = none) →
      (∀ id, id ∈ recs.map Prod.fst → id ∈ m.map Prod.fst) →
      (∀ k v, lookupA m k = some v → v.referenceCount = cnt k) →
      (∀ pr ∈ m, ∃ r, lookupA recs pr.1 = some r ∧ pr.2.chainID = pr.1 ∧
        pr.2.diffID = r.diffID ∧ pr.2.size = r.size ∧ pr.2.cacheID = r.cacheID ∧
        pr.2.parent = r.parent ∧ pr.2.references = []) →
      ∃ m1 mounts1, loadAllMounts recs mrecs todo m mounts = (m1, mounts1) ∧
        (∀ id, id ∈ recs.map Prod.fst → id ∈ m1.map Prod.fst) ∧
        (∀ pr ∈ m1, ∃ r, lookupA recs pr.1 = some r ∧ pr.2.chainID = pr.1 ∧
          pr.2.diffID = r.diffID ∧ pr.2.size = r.size ∧ pr.2.cacheID = r.cacheID ∧
          pr.2.parent = r.parent ∧ pr.2.references = []) ∧
        (∀ k v, lookupA m1 k = some v → v.referenceCount = cnt k +
          (todo.filter fun nm => decide (mountParentOfRec mrecs nm = some k)).length) := by
  intro todo
  induction todo with
  | nil =>
    intro m mounts cnt _ _ _ hall hcnt hflds
    refine ⟨m, mounts, rfl, hall, hflds, ?_⟩
    intro k v h
    simpa using hcnt k v h
  | cons name rest ih =>
    intro m mounts cnt hndt hmem hfreshm hall hcnt hflds
    simp only [List.nodup_cons] at hndt
    have hm0 : lookupA mounts name = none := hfreshm name (List.mem_cons_self _ _)
    have hnmem : name ∈ mrecs.map Prod.fst := hmem name (List.mem_cons_self _ _)
    obtain ⟨r, hr⟩ := lookupA_isSome_of_mem mrecs name hnmem
    obtain ⟨mid, hmidEq0⟩ := Option.isSome_iff_exists.mp
      (hmid (name, r) (lookupA_mem_pair mrecs name r hr))
    have hmidEq : r.mountID = some mid := hmidEq0
    have hparOf : mountParentOfRec mrecs name = r.parent := by
      rw [mountParentOfRec, hr, Option.some_bind]
    cases hp : r.parent with
    | none =>
      have hstep : loadAllMounts recs mrecs (name :: rest) m mounts =
          loadAllMounts recs mrecs rest m
            ((name, { name := name, mountID := mid, initID := r.initID, parent := none, references := [] }) :: mounts) := by
        simp only [loadAllMounts, loadMount, hm0, hr, hmidEq, hp]
      obtain ⟨m1, mounts1, heq1, c1, c2, c3⟩ := ih m
        ((name, { name := name, mountID := mid, initID := r.initID, parent := none, references := [] }) :: mounts)
        cnt hndt.2
        (fun nm h => hmem nm (List.mem_cons_of_mem _ h))
        (by
          intro nm h
          have hne : name ≠ nm := fun hcon => hndt.1 (hcon ▸ h)
          simpa [lookupA, hne] using hfreshm nm (List.mem_cons_of_mem _ h))
        hall hcnt hflds
      rw [hstep, heq1]
      refine ⟨m1, mounts1, rfl, c1, c2, ?_⟩
      intro k v h
      rw [c3 k v h]
      have hpk : decide (mountParentOfRec mrecs name = some k) = false := by
        rw [hparOf, hp]
        simp
      simp [List.filter_cons, hpk]
    | some pc =>
      have hpcr : pc ∈ recs.map Prod.fst :=
        hmpar (name, r) (lookupA_mem_pair mrecs name r hr) pc hp
      have hpcm : pc ∈ m.map Prod.fst := hall pc hpcr
      obtain ⟨p, hlp⟩ := lookupA_isSome_of_mem m pc hpcm
      have hhit := loadLayerGo_hit recs recs.length m pc p hlp
      have hstep : loadAllMounts recs mrecs (name :: rest) m mounts =
          loadAllMounts recs mrecs rest
            (updateA m pc { p with referenceCount := p.referenceCount + 1 })
            ((name, { name := name, mountID := mid, initID := r.initID, parent := some pc, references := [] }) :: mounts) := by
        simp only [loadAllMounts, loadMount, hm0, hr, hmidEq, hp, hhit]
      set m2 := updateA m pc { p with referenceCount := p.referenceCount + 1 } with hm2
      have hall2 : ∀ id, id ∈ recs.map Prod.fst → id ∈ m2.map Prod.fst := by
        intro i hi
        rw [hm2, map_fst_updateA]
        exact hall i hi
      have hcnt2 : ∀ k v, lookupA m2 k = some v →
          v.referenceCount = cnt k + (if mountParentOfRec mrecs name = some k then 1 else 0) := by
        intro k v h
        by_cases hk : k = pc
        · subst hk
          rw [hm2, lookupA_updateA_self m k p _ hlp] at h
          have hv : v = { p with referenceCount := p.referenceCount + 1 } :=
            (Option.some.inj h).symm
          rw [hv, if_pos (by rw [hparOf, hp])]
          have := hcnt k p hlp
          simp only []
          omega
        · rw [hm2, lookupA_updateA_ne _ _ _ _ (Ne.symm (fun hcon => hk hcon.symm))] at h
          rw [if_neg (by rw [hparOf, hp]; simpa using fun hcon => hk hcon.symm)]
          simp only [Nat.add_zero]
          exact hcnt k v h
      have hflds2 : ∀ pr ∈ m2, ∃ r2, lookupA recs pr.1 = some r2 ∧ pr.2.chainID = pr.1 ∧
          pr.2.diffID = r2.diffID ∧ pr.2.size = r2.size ∧ pr.2.cacheID = r2.cacheID ∧
          pr.2.parent = r2.parent ∧ pr.2.references = [] := by
        intro pr hpr
        rcases mem_updateA _ _ _ pr hpr with h | h
        · exact hflds pr h
        · obtain ⟨r2, hr2, e1, e2, e3, e4, e5, e6⟩ :=
            hflds (pc, p) (lookupA_mem_pair m pc p hlp)
          exact ⟨r2, by rw [h]; exact hr2, by rw [h]; exact e1, by rw [h]; exact e2,
            by rw [h]; exact e3, by rw [h]; exact e4, by rw [h]; exact e5,
            by rw [h]; exact e6⟩
      obtain ⟨m1, mounts1, heq1, c1, c2, c3⟩ := ih m2
        ((name, { name := name, mountID := mid, initID := r.initID, parent := some pc, references := [] }) :: mounts)
        (fun k => cnt k + (if mountParentOfRec mrecs name = some k then 1 else 0)) hndt.2
        (fun nm h => hmem nm (List.mem_cons_of_mem _ h))
        (by
          intro nm h
          have hne : name ≠ nm := fun hcon => hndt.1 (hcon ▸ h)
          simpa [lookupA, hne] using hfreshm nm (List.mem_cons_of_mem _ h))
        hall2 hcnt2 hflds2
      rw [hstep, heq1]
      refine ⟨m1, mounts1, rfl, c1, c2, ?_⟩
      intro k v h
      rw [c3 k v h]
      by_cases hpk : mountParentOfRec mrecs name = some k
      · simp [List.filter_cons, hpk]
        omega
      · simp [List.filter_cons, hpk]

/-- C7: store construction reconstructs reference counts purely from the
persisted parent links: after `newStoreFromGraphDriver`, every record's
node is indexed with exactly its persisted fields, no external handles,
and a reference count equal to one per child record naming it as parent
plus one per mount record naming it as parent (shared ancestors are
loaded once, memoized); consequently a restart against the same metadata
reproduces the reference count of every still-reachable node of any
store that was in this consistent state. -/
theorem C7_restart_reconstruction (recs : List (Digest × LayerRecord))
    (mrecs : List (String × MountRecord)) (ds : List Nat) (nid : Nat)
    (rank : Digest → Nat)
    (hnd : (recs.map Prod.fst).Nodup)
    (hrank : ∀ c r pc, lookupA recs c = some r → r.parent = some pc → rank pc < rank c)
    (hclosed : ∀ c r pc, lookupA recs c = some r → r.parent = some pc →
      pc ∈ recs.map Prod.fst)
    (hrankb : ∀ c ∈ recs.map Prod.fst, rank c < recs.length + 1)
    (hmnd : (mrecs.map Prod.fst).Nodup)
    (hmid : ∀ pr ∈ mrecs, pr.2.mountID.isSome)
    (hmpar : ∀ pr ∈ mrecs, ∀ pc, pr.2.parent = some pc → pc ∈ recs.map Prod.fst) :
    (∀ c r, lookupA recs c = some r →
      ∃ n, lookupA (newStoreFromGraphDriver recs mrecs ds nid).layerMap c = some n ∧
        n.chainID = c ∧ n.diffID = r.diffID ∧ n.size = r.size ∧ n.cacheID = r.cacheID ∧
        n.parent = r.parent ∧ n.references = [] ∧
        n.referenceCount =
          (recs.filter fun pr => decide (pr.2.parent = some c)).length +
          (mrecs.filter fun pr => decide (pr.2.parent = some c)).length) ∧
    (∀ (T : layerStore) (c : Digest) (r : LayerRecord) (n n' : roLayer),
      T.metaRecords = recs → T.mountRecords = mrecs →
      lookupA recs c = some r →
      lookupA T.layerMap c = some n →
      n.referenceCount =
        (recs.filter fun pr => decide (pr.2.parent = some c)).length +
        (mrecs.filter fun pr => decide (pr.2.parent = some c)).length →
      lookupA (newStoreFromGraphDriver recs mrecs ds nid).layerMap c = some n' →
      n'.referenceCount = n.referenceCount) := by
  obtain ⟨hwfL, hndL, _, hcov, hcntL⟩ :=
    loadAllLayers_count recs rank hrank hclosed (recs.map Prod.fst) []
      (fun _ => 0) (fun id h => h) (fun id h => hrankb id h)
      ⟨by simp, by simp⟩ (by simp)
      (by intro k v h; simp [lookupA] at h) (fun k _ => rfl)
  obtain ⟨mF, mountsF, heqM, cF1, cF2, cF3⟩ :=
    loadAllMounts_count recs mrecs hmid hmpar (mrecs.map Prod.fst)
      (loadAllLayers recs (recs.map Prod.fst) []) []
      (fun k => ((recs.map Prod.fst).filter fun id =>
        decide (parentOfRec recs id = some k)).length)
      hmnd (fun nm h => h) (fun nm _ => rfl) (fun id h => hcov id h)
      (by
        intro k v h
        rw [hcntL k v h]
        exact Nat.zero_add _)
      hwfL.1
  have hS : (newStoreFromGraphDriver recs mrecs ds nid).layerMap = mF := by
    simp [newStoreFromGraphDriver, heqM]
  have main : ∀ c r, lookupA recs c = some r →
      ∃ n, lookupA (newStoreFromGraphDriver recs mrecs ds nid).layerMap c = some n ∧
        n.chainID = c ∧ n.diffID = r.diffID ∧ n.size = r.size ∧ n.cacheID = r.cacheID ∧
        n.parent = r.parent ∧ n.references = [] ∧
        n.referenceCount =
          (recs.filter fun pr => decide (pr.2.parent = some c)).length +
          (mrecs.filter fun pr => decide (pr.2.parent = some c)).length := by
    intro c r hc
    have hcm : c ∈ (loadAllLayers recs (recs.map Prod.fst) []).map Prod.fst :=
      hcov c (lookupA_mem recs c r hc)
    have hcm1 : c ∈ mF.map Prod.fst := cF1 c (lookupA_mem recs c r hc)
    obtain ⟨n, hn⟩ := lookupA_isSome_of_mem mF c hcm1
    obtain ⟨r2, hr2, e1, e2, e3, e4, e5, e6⟩ := cF2 (c, n) (lookupA_mem_pair mF c n hn)
    have hr2r : r2 = r := by
      have := hr2.symm.trans hc
      exact Option.some.inj this
    subst hr2r
    refine ⟨n, by rw [hS]; exact hn, e1, e2, e3, e4, e5, e6, ?_⟩
    have hcount := cF3 c n hn
    rw [hcount]
    have h1 := count_bind_keys recs LayerRecord.parent c hnd
    have h2 := count_bind_keys mrecs MountRecord.parent c hmnd
    simp only [parentOfRec] at *
    simp only [mountParentOfRec] at *
    rw [h1, h2]
  refine ⟨main, ?_⟩
  intro T c r n n' hmeta hmounts hc hln hrc hln'
  obtain ⟨n0, hn0, _, _, _, _, _, _, hcnt0⟩ := main c r hc
  have hne : n' = n0 := Option.some.inj ((hn0.symm.trans hln').symm)
  rw [hne, hcnt0, hrc]

def dRW : Digest := .diffD 30

def dAW : Digest := .diffD 31

def dBW : Digest := .diffD 32

def cAW : Digest := .chain dRW dAW

def cBW : Digest := .chain dRW dBW

/-- Persisted layer records: a root with two children sharing it. -/
def recsC7 : List (Digest × LayerRecord) :=
  [(dRW, ⟨dRW, 3, 70, none⟩), (cAW, ⟨dAW, 1, 71, some dRW⟩), (cBW, ⟨dBW, 1, 72, some dRW⟩)]

/-- Persisted mount records: two mounts on one child, one on the other. -/
def mrecsC7 : List (String × MountRecord) :=
  [("m1", ⟨some 81, none, some cAW⟩), ("m2", ⟨some 82, none, some cBW⟩),
    ("m3", ⟨some 83, none, some cAW⟩)]

def rankC7 : Digest → Nat := fun c =>
  match c with
  | .diffD _ => 0
  | .chain _ _ => 1

def nRW7 : roLayer :=
  { chainID := dRW, diffID := dRW, size := 3, cacheID := 70, parent := none
    referenceCount := 2, references := [] }

def nCAW : roLayer :=
  { chainID := cAW, diffID := dAW, size := 1, cacheID := 71, parent := some dRW
    referenceCount := 2, references := [] }

def nCBW : roLayer :=
  { chainID := cBW, diffID := dBW, size := 1, cacheID := 72, parent := some dRW
    referenceCount := 1, references := [] }

theorem C7_restart_reconstruction_witness :
    lookupA (newStoreFromGraphDriver recsC7 mrecsC7 [70, 71, 72] 500).layerMap cAW
      = some nCAW ∧ nCAW.referenceCount = 2 ∧
    lookupA (newStoreFromGraphDriver recsC7 mrecsC7 [70, 71, 72] 500).layerMap dRW
      = some nRW7 ∧ nRW7.referenceCount = 2 ∧
    lookupA (newStoreFromGraphDriver recsC7 mrecsC7 [70, 71, 72] 500).layerMap cBW
      = some nCBW ∧ nCBW.referenceCount = 1 := by
  obtain ⟨main, hrestart⟩ := C7_restart_reconstruction recsC7 mrecsC7 [70, 71, 72] 500
    rankC7 (by decide)
    (by
      intro c r pc hc hp
      have hm := lookupA_mem_pair recsC7 c r hc
      simp [recsC7] at hm
      rcases hm with ⟨rfl, rfl⟩ | ⟨rfl, rfl⟩ | ⟨rfl, rfl⟩
      · exact Option.noConfusion hp
      · obtain rfl := Option.some.inj hp
        decide
      · obtain rfl := Option.some.inj hp
        decide)
    (by
      intro c r pc hc hp
      have hm := lookupA_mem_pair recsC7 c r hc
      simp [recsC7] at hm
      rcases hm with ⟨rfl, rfl⟩ | ⟨rfl, rfl⟩ | ⟨rfl, rfl⟩
      · exact Option.noConfusion hp
      · obtain rfl := Option.some.inj hp
        decide
      · obtain rfl := Option.some.inj hp
        decide)
    (by decide) (by decide) (by decide)
    (by
      intro pr hpr pc hp
      simp [mrecsC7] at hpr
      rcases hpr with rfl | rfl | rfl
      · obtain rfl := Option.some.inj hp
        decide
      · obtain rfl := Option.some.inj hp
        decide
      · obtain rfl := Option.some.inj hp
        decide)
  obtain ⟨nA, hnA, _, _, _, _, _, _, hcA⟩ := main cAW ⟨dAW, 1, 71, some dRW⟩ (by decide)
  obtain ⟨nR, hnR, _, _, _, _, _, _, hcR⟩ := main dRW ⟨dRW, 3, 70, none⟩ (by decide)
  obtain ⟨nB, hnB, _, _, _, _, _, _, hcB⟩ := main cBW ⟨dBW, 1, 72, some dRW⟩ (by decide)
  have hSA : lookupA (newStoreFromGraphDriver recsC7 mrecsC7 [70, 71, 72] 500).layerMap cAW
      = some nCAW := by decide
  have hSR : lookupA (newStoreFromGraphDriver recsC7 mrecsC7 [70, 71, 72] 500).layerMap dRW
      = some nRW7 := by decide
  have hSB : lookupA (newStoreFromGraphDriver recsC7 mrecsC7 [70, 71, 72] 500).layerMap cBW
      = some nCBW := by decide
  refine ⟨hSA, ?_, hSR, ?_, hSB, ?_⟩
  · rw [← Option.some.inj (hnA.symm.trans hSA), hcA]
    decide
  · rw [← Option.some.inj (hnR.symm.trans hSR), hcR]
    decide
  · rw [← Option.some.inj (hnB.symm.trans hSB), hcB]
    decide

/-! ### C10 -/

/-- C10: releasing an identity absent from the store is a silent no-op:
a `Layer` handle whose chain ID is not in the layer index makes
`Release` return an empty `Metadata` list and no error, and an `RWLayer`
handle whose name is not in the mounts index makes `ReleaseRWLayer` do
likewise; neither changes any state. -/
theorem C10_absent_release_noop (dFail : List Nat) (rmF : Bool) (ls : layerStore)
    (l : Layer) (rw : RWLayer)
    (hl : lookupA ls.layerMap l.chainID = none)
    (hm : lookupA ls.mounts rw.name = none) :
    ls.Release dFail l = (.ok [], ls) ∧
    layerStore.ReleaseRWLayer dFail rmF ls rw = (.ok [], ls) := by
  constructor
  · simp [layerStore.Release, hl]
  · simp [layerStore.ReleaseRWLayer, hm]

/-- Witness for C10 at a concrete store and handles. -/
theorem C10_absent_release_noop_witness :
    lookupA storeA.layerMap (Digest.diffD 1) = none ∧
    lookupA storeA.mounts "m" = none ∧
    (storeA.Release [] ⟨Digest.diffD 1, 0⟩ = (.ok [], storeA) ∧
      layerStore.ReleaseRWLayer [] false storeA ⟨"m", 0⟩ = (.ok [], storeA)) :=
  ⟨by decide, by decide,
    C10_absent_release_noop [] false storeA ⟨Digest.diffD 1, 0⟩ ⟨"m", 0⟩
      (by decide) (by decide)⟩

/-! ### C1 -/

theorem updateA_comm {κ α : Type} [DecidableEq κ] (m : List (κ × α)) (k1 k2 : κ)
    (v1 v2 : α) (h : k1 ≠ k2) :
    updateA (updateA m k1 v1) k2 v2 = updateA (updateA m k2 v2) k1 v1 := by
  induction m with
  | nil => simp [updateA]
  | cons p t ih =>
    obtain ⟨pk, pv⟩ := p
    by_cases h1 : pk = k1
    · subst h1
      simp [updateA, h, Ne.symm h]
    · by_cases h2 : pk = k2
      · subst h2
        simp [updateA, h1, Ne.symm h1]
      · simp [updateA, h1, h2, ih]

/-- The chain ID `Register` computes for a diff stream under a parent:
the diff digest itself for a root layer, `digest(parent ‖ diff)`
otherwise. -/
def computedChainID (ts : DiffStream) (parent : Option Digest) : Digest :=
  match parent with
  | none => .diffD ts.content
  | some pc => .chain pc (.diffD ts.content)

/-- C1: `Register` is idempotent under identical content.  When the
computed chain ID already names a node, the call discards the new
backing store (driver stores restored exactly) and the metadata
transaction (records untouched), releases the parent reference it took,
and succeeds with a fresh handle on the existing node whose reference
count is incremented. -/
theorem C1_register_idempotent (ls : layerStore) (ts : DiffStream) (parent : Option Digest)
    (e : roLayer)
    (hpar : ∀ pc, parent = some pc → ∃ p, lookupA ls.layerMap pc = some p ∧
      1 ≤ p.referenceCount ∧
      depthGo ls.layerMap (ls.layerMap.length + 1) p < maxLayerDepth)
    (he : lookupA ls.layerMap (computedChainID ts parent) = some e)
    (hfresh : ls.nextID ∉ ls.driverStores) :
    ls.registerWithDescriptor ts parent regOK =
      (.ok ⟨e.chainID, ls.nextID + 1⟩,
        { ls with
          layerMap := updateA ls.layerMap (computedChainID ts parent)
            { e with
              referenceCount := e.referenceCount + 1
              references := e.references ++ [ls.nextID + 1] }
          nextID := ls.nextID + 2 }) := by
  cases parent with
  | none =>
    simp only [computedChainID] at he
    have he2 := lookupA_updateA_self ls.layerMap (Digest.diffD ts.content) e
      { e with referenceCount := e.referenceCount + 1 } he
    simp only [layerStore.registerWithDescriptor, registerCore, regOK, Bool.false_eq_true,
      if_false, layerStore.get, cleanupStore, getReferenceRO, he, he2, computedChainID]
    rw [filter_ne_cons_self ls.nextID ls.driverStores hfresh, updateA_updateA]
  | some pc =>
    obtain ⟨p, hp, hprc, hpd⟩ := hpar pc rfl
    simp only [computedChainID] at he
    have hne : Digest.chain pc (Digest.diffD ts.content) ≠ pc := Digest.chain_ne_left _ _
    -- the parent reference is taken first
    simp only [layerStore.registerWithDescriptor, layerStore.get, hp]
    -- depth check passes
    have hdeq : depthGo (updateA ls.layerMap pc { p with referenceCount := p.referenceCount + 1 })
        ((updateA ls.layerMap pc { p with referenceCount := p.referenceCount + 1 }).length + 1)
        { p with referenceCount := p.referenceCount + 1 }
        = depthGo ls.layerMap (ls.layerMap.length + 1) p := by
      rw [length_updateA, depthGo_update_rc ls.layerMap pc p _ hp,
        depthGo_parent_congr _ _ { p with referenceCount := p.referenceCount + 1 } p rfl]
    rw [hdeq, if_neg (by omega)]
    -- the dedup hit inside the core
    have hlk1 : lookupA (updateA ls.layerMap pc { p with referenceCount := p.referenceCount + 1 })
        (Digest.chain pc (Digest.diffD ts.content)) = some e := by
      rw [lookupA_updateA_ne _ _ _ _ hne, he]
    have hlk2 := lookupA_updateA_self _ _ e { e with referenceCount := e.referenceCount + 1 } hlk1
    simp only [registerCore, regOK, Bool.false_eq_true, if_false, layerStore.get,
      cleanupStore, getReferenceRO, hlk1, hlk2]
    rw [filter_ne_cons_self ls.nextID ls.driverStores hfresh, updateA_updateA]
    -- the deferred release of the parent reference
    have hlk3 : lookupA (updateA
        (updateA ls.layerMap pc { p with referenceCount := p.referenceCount + 1 })
        (Digest.chain pc (Digest.diffD ts.content))
        { e with referenceCount := e.referenceCount + 1
                 references := e.references ++ [ls.nextID + 1] }) pc
        = some { p with referenceCount := p.referenceCount + 1 } := by
      rw [lookupA_updateA_ne _ _ _ _ (Ne.symm hne),
        lookupA_updateA_self ls.layerMap pc p _ hp]
    have hrel := releaseLayerGo_early []
      (updateA
        (updateA ls.layerMap pc { p with referenceCount := p.referenceCount + 1 })
        (Digest.chain pc (Digest.diffD ts.content))
        { e with referenceCount := e.referenceCount + 1
                 references := e.references ++ [ls.nextID + 1] }).length
      { layerMap := updateA
          (updateA ls.layerMap pc { p with referenceCount := p.referenceCount + 1 })
          (Digest.chain pc (Digest.diffD ts.content))
          { e with referenceCount := e.referenceCount + 1
                   references := e.references ++ [ls.nextID + 1] }
        mounts := ls.mounts, metaRecords := ls.metaRecords, mountRecords := ls.mountRecords
        driverStores := ls.driverStores, nextID := ls.nextID + 1 + 1 }
      pc { p with referenceCount := p.referenceCount + 1 } 0 [] hlk3
      (by simp) (by simp; omega)
    simp only [releaseLayer]
    rw [hrel]
    simp only [Nat.add_sub_cancel]
    rw [show ({ p with referenceCount := p.referenceCount } : roLayer) = p from rfl]
    rw [updateA_comm _ _ _ _ _ hne, updateA_updateA, updateA_id ls.layerMap pc p hp]
    simp only [computedChainID]

/-- Witness for C1: re-registering the content of the already-present
root layer of `storeA`. -/
theorem C1_register_idempotent_witness :
    lookupA storeA.layerMap (computedChainID ⟨0, 5⟩ none) = some nodeA ∧
    storeA.nextID ∉ storeA.driverStores ∧
    storeA.registerWithDescriptor ⟨0, 5⟩ none regOK =
      (.ok ⟨nodeA.chainID, storeA.nextID + 1⟩,
        { storeA with
          layerMap := updateA storeA.layerMap (computedChainID ⟨0, 5⟩ none)
            { nodeA with
              referenceCount := nodeA.referenceCount + 1
              references := nodeA.references ++ [storeA.nextID + 1] }
          nextID := storeA.nextID + 2 }) :=
  ⟨rfl, by decide,
    C1_register_idempotent storeA ⟨0, 5⟩ none nodeA (fun pc h => nomatch h) rfl (by decide)⟩

/-! ### C3 -/

/-- Variant of `releaseLayer_after_get` for a store whose other fields
have drifted: only the layer map is touched by the early-return
release. -/
theorem releaseLayer_after_get2 (dFail : List Nat) (S : layerStore)
    (m0 : List (Digest × roLayer)) (pc : Digest) (p : roLayer)
    (hmap : S.layerMap = updateA m0 pc { p with referenceCount := p.referenceCount + 1 })
    (hp : lookupA m0 pc = some p) (hrc : 1 ≤ p.referenceCount) :
    releaseLayer dFail S pc = (.ok [], { S with layerMap := m0 }) := by
  have hl : lookupA S.layerMap pc = some { p with referenceCount := p.referenceCount + 1 } := by
    rw [hmap]
    exact lookupA_updateA_self m0 pc p _ hp
  have h := releaseLayerGo_early dFail S.layerMap.length S pc
    { p with referenceCount := p.referenceCount + 1 } 0 [] hl (by simp) (by simp; omega)
  rw [releaseLayer, h]
  simp only [Nat.add_sub_cancel]
  rw [show ({ p with referenceCount := p.referenceCount } : roLayer) = p from rfl]
  rw [hmap, updateA_updateA, updateA_id m0 pc p hp]

/-- Every error exit of `registerCore` sets the cleanup flag, leaves the
indices and records exactly as on entry, and leaves the driver stores as
on entry except for the `StartTransaction` failure, which is reached
before the driver/transaction cleanup is deferred and therefore leaks
the just-created backing store. -/
theorem registerCore_error (ls1 : layerStore) (ts : DiffStream) (pinfo : Option (Digest × Nat))
    (f : RegFail) (e : LayerErr) (S : layerStore) (flag : Bool)
    (hfresh : ls1.nextID ∉ ls1.driverStores)
    (h : registerCore ls1 ts pinfo f = ((.error e, S), flag)) :
    flag = true ∧ S.layerMap = ls1.layerMap ∧ S.mounts = ls1.mounts ∧
    S.metaRecords = ls1.metaRecords ∧ S.mountRecords = ls1.mountRecords ∧
    S.driverStores = (if e = .txStartFailed then ls1.nextID :: ls1.driverStores
      else ls1.driverStores) := by
  have hclean : (ls1.nextID :: ls1.driverStores).filter (· ≠ ls1.nextID) = ls1.driverStores :=
    filter_ne_cons_self _ _ hfresh
  obtain ⟨c, t, a, st, cm⟩ := f
  cases c with
  | true =>
    simp only [registerCore, if_true] at h
    simp only [Prod.mk.injEq, Except.error.injEq] at h
    obtain ⟨⟨he, hS⟩, hflag⟩ := h
    subst he; subst hS; subst hflag
    exact ⟨rfl, rfl, rfl, rfl, rfl, by rw [if_neg (by decide)]⟩
  | false =>
  cases t with
  | true =>
    simp only [registerCore, Bool.false_eq_true, if_false, if_true] at h
    simp only [Prod.mk.injEq, Except.error.injEq] at h
    obtain ⟨⟨he, hS⟩, hflag⟩ := h
    subst he; subst hS; subst hflag
    exact ⟨rfl, rfl, rfl, rfl, rfl, by rw [if_pos rfl]⟩
  | false =>
  cases a with
  | true =>
    simp only [registerCore, Bool.false_eq_true, if_false, if_true] at h
    simp only [Prod.mk.injEq, Except.error.injEq] at h
    obtain ⟨⟨he, hS⟩, hflag⟩ := h
    subst he; subst hS; subst hflag
    exact ⟨rfl, rfl, rfl, rfl, rfl, by rw [if_neg (by decide)]; exact hclean⟩
  | false =>
  cases st with
  | true =>
    simp only [registerCore, Bool.false_eq_true, if_false, if_true] at h
    simp only [Prod.mk.injEq, Except.error.injEq] at h
    obtain ⟨⟨he, hS⟩, hflag⟩ := h
    subst he; subst hS; subst hflag
    exact ⟨rfl, rfl, rfl, rfl, rfl, by rw [if_neg (by decide)]; exact hclean⟩
  | false =>
    simp only [registerCore, Bool.false_eq_true, if_false] at h
    generalize hcid : (match pinfo with
      | none => Digest.diffD ts.content
      | some pi => Digest.chain pi.1 (Digest.diffD ts.content)) = cid at h
    cases hlook : lookupA ls1.layerMap cid with
    | some e0 =>
      rw [hlook] at h
      simp only [Prod.mk.injEq] at h
      exact absurd h.1.1 (by simp)
    | none =>
      rw [hlook] at h
      cases cm with
      | true =>
        simp only [if_true] at h
        simp only [Prod.mk.injEq, Except.error.injEq] at h
        obtain ⟨⟨he, hS⟩, hflag⟩ := h
        subst he; subst hS; subst hflag
        exact ⟨rfl, rfl, rfl, rfl, rfl, by rw [if_neg (by decide)]; exact hclean⟩
      | false =>
        simp only [Bool.false_eq_true, if_false] at h
        simp only [Prod.mk.injEq] at h
        exact absurd h.1.1 (by simp)

/-- Every failing `registerWithDescriptor` call restores the layer map
(releasing the parent reference it took), the mounts index and all
records; the driver stores are restored too except on the
`StartTransaction` failure, which leaks the created backing store. -/
theorem register_error_rollback (ls : layerStore) (ts : DiffStream) (parent : Option Digest)
    (f : RegFail) (e : LayerErr) (S : layerStore)
    (hpar : ∀ pc, parent = some pc →
      ∃ p, lookupA ls.layerMap pc = some p ∧ 1 ≤ p.referenceCount)
    (hfresh : ls.nextID ∉ ls.driverStores)
    (h : ls.registerWithDescriptor ts parent f = (.error e, S)) :
    S.layerMap = ls.layerMap ∧ S.mounts = ls.mounts ∧ S.metaRecords = ls.metaRecords ∧
    S.mountRecords = ls.mountRecords ∧
    S.driverStores = (if e = .txStartFailed then ls.nextID :: ls.driverStores
      else ls.driverStores) := by
  cases parent with
  | none =>
    simp only [layerStore.registerWithDescriptor] at h
    obtain ⟨r1, S0, flag, hC⟩ :
        ∃ r1 S0 flag, registerCore ls ts none f = ((r1, S0), flag) := ⟨_, _, _, rfl⟩
    rw [hC] at h
    simp only [Prod.mk.injEq] at h
    obtain ⟨hr, hS⟩ := h
    subst hr
    rw [hS] at hC
    obtain ⟨_, h1, h2, h3, h4, h5⟩ := registerCore_error ls ts none f e S flag hfresh hC
    exact ⟨h1, h2, h3, h4, h5⟩
  | some pc =>
    obtain ⟨p, hp, hprc⟩ := hpar pc rfl
    simp only [layerStore.registerWithDescriptor, layerStore.get, hp] at h
    split at h
    · -- depth exceeded: the parent reference is released and nothing
      -- else has happened yet
      rw [releaseLayer_after_get [] ls pc p hp hprc] at h
      simp only [Prod.mk.injEq, Except.error.injEq] at h
      obtain ⟨he, hS⟩ := h
      subst he
      rw [← hS]
      exact ⟨rfl, rfl, rfl, rfl, by rw [if_neg (by decide)]⟩
    · have hex : ∃ r1 S0 flag, registerCore { ls with layerMap := updateA ls.layerMap pc { p with referenceCount := p.referenceCount + 1 } } ts (some (pc, p.cacheID)) f = ((r1, S0), flag) := ⟨_, _, _, rfl⟩
      obtain ⟨r1, S0, flag, hC⟩ := hex
      rw [hC] at h
      cases flag with
      | false =>
        simp only [Prod.mk.injEq] at h
        obtain ⟨hr, hS⟩ := h
        subst hr
        obtain ⟨hflag, _⟩ := registerCore_error _ ts (some (pc, p.cacheID)) f e S0 false
          (by exact hfresh) hC
        exact absurd hflag (by simp)
      | true =>
        simp only [Prod.mk.injEq] at h
        obtain ⟨hr, hS⟩ := h
        subst hr
        obtain ⟨_, h1, h2, h3, h4, h5⟩ := registerCore_error _ ts (some (pc, p.cacheID)) f e S0
          true (by exact hfresh) hC
        have hrel := releaseLayer_after_get2 [] S0 ls.layerMap pc p h1 hp hprc
        rw [hrel] at hS
        rw [← hS]
        exact ⟨rfl, h2, h3, h4, h5⟩

/-- Every error exit of `finishRW` leaves the layer map, the mounts
index and the layer records exactly as on entry (driver stores and
partially-written mount records may differ). -/
theorem finishRW_error (ls : layerStore) (name : String) (pinfo : Option (Digest × Nat))
    (mountID : Nat) (initID : Option Nat) (f : RWFail) (e : LayerErr) (S : layerStore)
    (h : finishRW ls name pinfo mountID initID f = (.error e, S)) :
    S.layerMap = ls.layerMap ∧ S.mounts = ls.mounts ∧ S.metaRecords = ls.metaRecords := by
  obtain ⟨ic, ig, ifn, ip, rc, sm, si, sp⟩ := f
  cases rc with
  | true =>
    simp only [finishRW, if_true] at h
    simp only [Prod.mk.injEq, Except.error.injEq] at h
    rw [← h.2]
    exact ⟨rfl, rfl, rfl⟩
  | false =>
  cases sm with
  | true =>
    simp only [finishRW, Bool.false_eq_true, if_false, if_true] at h
    simp only [Prod.mk.injEq, Except.error.injEq] at h
    rw [← h.2]
    exact ⟨rfl, rfl, rfl⟩
  | false =>
  cases initID with
  | none =>
    cases pinfo with
    | none =>
      simp only [finishRW, Bool.false_eq_true, if_false, Option.isSome_none, Bool.false_and,
        Bool.and_false, getReferenceRW, lookupA_cons_self] at h
      simp only [Prod.mk.injEq] at h
      exact absurd h.1 (by simp)
    | some pi =>
      cases sp with
      | true =>
        simp only [finishRW, Bool.false_eq_true, if_false, Option.isSome_none,
          Option.isSome_some, Bool.false_and, Bool.true_and, if_true] at h
        simp only [Prod.mk.injEq, Except.error.injEq] at h
        rw [← h.2]
        exact ⟨rfl, rfl, rfl⟩
      | false =>
        simp only [finishRW, Bool.false_eq_true, if_false, Option.isSome_none,
          Option.isSome_some, Bool.false_and, Bool.true_and, Bool.and_false,
          getReferenceRW, lookupA_cons_self] at h
        simp only [Prod.mk.injEq] at h
        exact absurd h.1 (by simp)
  | some iid =>
    cases si with
    | true =>
      simp only [finishRW, Bool.false_eq_true, if_false, Option.isSome_some, Bool.true_and,
        if_true] at h
      simp only [Prod.mk.injEq, Except.error.injEq] at h
      rw [← h.2]
      exact ⟨rfl, rfl, rfl⟩
    | false =>
      cases pinfo with
      | none =>
        simp only [finishRW, Bool.false_eq_true, if_false, Option.isSome_some,
          Option.isSome_none, Bool.true_and, Bool.false_and, Bool.and_false,
          getReferenceRW, lookupA_cons_self] at h
        simp only [Prod.mk.injEq] at h
        exact absurd h.1 (by simp)
      | some pi =>
        cases sp with
        | true =>
          simp only [finishRW, Bool.false_eq_true, if_false, Option.isSome_some,
            Bool.true_and, Bool.and_false, if_true] at h
          simp only [Prod.mk.injEq, Except.error.injEq] at h
          rw [← h.2]
          exact ⟨rfl, rfl, rfl⟩
        | false =>
          simp only [finishRW, Bool.false_eq_true, if_false, Option.isSome_some,
            Bool.true_and, Bool.and_false, getReferenceRW, lookupA_cons_self] at h
          simp only [Prod.mk.injEq] at h
          exact absurd h.1 (by simp)

/-- Every error exit of `createRWCore` leaves the layer map, the mounts
index and the layer records exactly as on entry. -/
theorem createRWCore_error (ls1 : layerStore) (name : String) (pinfo : Option (Digest × Nat))
    (withInit : Bool) (f : RWFail) (e : LayerErr) (S : layerStore)
    (h : createRWCore ls1 name pinfo withInit f = (.error e, S)) :
    S.layerMap = ls1.layerMap ∧ S.mounts = ls1.mounts ∧ S.metaRecords = ls1.metaRecords := by
  cases withInit with
  | false =>
    simp only [createRWCore, Bool.false_eq_true, if_false] at h
    have hh := finishRW_error _ _ _ _ _ _ _ _ h
    exact hh
  | true =>
    obtain ⟨ic, ig, ifn, ip, rc, sm, si, sp⟩ := f
    cases ic with
    | true =>
      simp only [createRWCore, if_true] at h
      simp only [Prod.mk.injEq, Except.error.injEq] at h
      rw [← h.2]
      exact ⟨rfl, rfl, rfl⟩
    | false =>
    cases ig with
    | true =>
      simp only [createRWCore, Bool.false_eq_true, if_false, if_true] at h
      simp only [Prod.mk.injEq, Except.error.injEq] at h
      rw [← h.2]
      exact ⟨rfl, rfl, rfl⟩
    | false =>
    cases ifn with
    | true =>
      simp only [createRWCore, Bool.false_eq_true, if_false, if_true] at h
      simp only [Prod.mk.injEq, Except.error.injEq] at h
      rw [← h.2]
      exact ⟨rfl, rfl, rfl⟩
    | false =>
    cases ip with
    | true =>
      simp only [createRWCore, Bool.false_eq_true, if_false, if_true] at h
      simp only [Prod.mk.injEq, Except.error.injEq] at h
      rw [← h.2]
      exact ⟨rfl, rfl, rfl⟩
    | false =>
      simp only [createRWCore, eq_self_iff_true, if_true, Bool.false_eq_true, if_false] at h
      have hh := finishRW_error _ _ _ _ _ _ _ _ h
      exact hh

/-- Every failing `CreateRWLayer` call restores the layer map (releasing
the parent reference it took), the mounts index and the layer records;
unlike `Register` it defines no driver-store or mount-record rollback,
so those may retain the effects of completed steps. -/
theorem createRW_error_rollback (ls : layerStore) (name : String) (parent : Option Digest)
    (withInit : Bool) (f : RWFail) (e : LayerErr) (S : layerStore)
    (hpar : ∀ pc, parent = some pc →
      ∃ p, lookupA ls.layerMap pc = some p ∧ 1 ≤ p.referenceCount)
    (h : ls.CreateRWLayer name parent withInit f = (.error e, S)) :
    S.layerMap = ls.layerMap ∧ S.mounts = ls.mounts ∧ S.metaRecords = ls.metaRecords := by
  cases hm : lookupA ls.mounts name with
  | some m0 =>
    simp only [layerStore.CreateRWLayer, hm] at h
    simp only [Prod.mk.injEq] at h
    rw [← h.2]
    exact ⟨rfl, rfl, rfl⟩
  | none =>
    simp only [layerStore.CreateRWLayer, hm] at h
    cases parent with
    | none => exact createRWCore_error ls name none withInit f e S h
    | some pc =>
      obtain ⟨p, hp, hprc⟩ := hpar pc rfl
      simp only [layerStore.get, hp] at h
      have hex : ∃ r1 S0, createRWCore { ls with layerMap := updateA ls.layerMap pc { p with referenceCount := p.referenceCount + 1 } } name (some (pc, p.cacheID)) withInit f = (r1, S0) := ⟨_, _, rfl⟩
      obtain ⟨r1, S0, hC⟩ := hex
      rw [hC] at h
      cases r1 with
      | ok v =>
        simp only [Prod.mk.injEq] at h
        exact absurd h.1 (by simp)
      | error e0 =>
        obtain ⟨c1, c2, c3⟩ := createRWCore_error _ name (some (pc, p.cacheID)) withInit f e0
          S0 hC
        have hrel := releaseLayer_after_get2 [] S0 ls.layerMap pc p c1 hp hprc
        simp only [hrel] at h
        simp only [Prod.mk.injEq, Except.error.injEq] at h
        rw [← h.2]
        exact ⟨rfl, c2, c3⟩

/-- C3 (amended): every failing `Register` or `CreateRWLayer` call
leaves the layer index, the mounts index and the committed layer records
exactly as before the call, releasing the parent reference taken at the
start; `Register` additionally removes its just-created backing store
and cancels the metadata transaction on every failure after the
transaction was opened, but a `Register` failing at `StartTransaction`
leaks the created backing store, and a failing `CreateRWLayer` performs
no driver-store or mount-record rollback at all. -/
theorem C3_error_rollback_amended (ls : layerStore) (ts : DiffStream) (parent : Option Digest)
    (name : String) (withInit : Bool)
    (hpar : ∀ pc, parent = some pc →
      ∃ p, lookupA ls.layerMap pc = some p ∧ 1 ≤ p.referenceCount)
    (hfresh : ls.nextID ∉ ls.driverStores) :
    (∀ f e S, ls.registerWithDescriptor ts parent f = (.error e, S) →
      S.layerMap = ls.layerMap ∧ S.mounts = ls.mounts ∧ S.metaRecords = ls.metaRecords ∧
      S.mountRecords = ls.mountRecords ∧
      S.driverStores = (if e = .txStartFailed then ls.nextID :: ls.driverStores
        else ls.driverStores)) ∧
    (∀ f e S, ls.CreateRWLayer name parent withInit f = (.error e, S) →
      S.layerMap = ls.layerMap ∧ S.mounts = ls.mounts ∧ S.metaRecords = ls.metaRecords) :=
  ⟨fun f e S h => register_error_rollback ls ts parent f e S hpar hfresh h,
    fun f e S h => createRW_error_rollback ls name parent withInit f e S hpar h⟩

/-- Counterexample to C3 as stated: a `Register` whose
`StartTransaction` fails returns an error yet leaves the just-created
graph-driver backing store behind — the side effects of the prior step
are not undone. -/
theorem C3_counterexample_tx_leak :
    (storeA.registerWithDescriptor ⟨1, 1⟩ none ⟨false, true, false, false, false⟩).1 =
      .error .txStartFailed ∧
    (storeA.registerWithDescriptor ⟨1, 1⟩ none ⟨false, true, false, false, false⟩).2.driverStores =
      [200, 100] ∧
    storeA.driverStores = [100] :=
  ⟨rfl, rfl, rfl⟩

/-- Witness for the amended C3 at a concrete store with a real parent. -/
theorem C3_error_rollback_amended_witness :
    storeA.nextID ∉ storeA.driverStores ∧
    ((∀ f e S, storeA.registerWithDescriptor ⟨1, 1⟩ (some dA) f = (.error e, S) →
      S.layerMap = storeA.layerMap ∧ S.mounts = storeA.mounts ∧
      S.metaRecords = storeA.metaRecords ∧ S.mountRecords = storeA.mountRecords ∧
      S.driverStores = (if e = .txStartFailed then storeA.nextID :: storeA.driverStores
        else storeA.driverStores)) ∧
    (∀ f e S, storeA.CreateRWLayer "w" (some dA) true f = (.error e, S) →
      S.layerMap = storeA.layerMap ∧ S.mounts = storeA.mounts ∧
      S.metaRecords = storeA.metaRecords)) :=
  ⟨by decide,
    C3_error_rollback_amended storeA ⟨1, 1⟩ (some dA) "w" true
      (fun pc h => by cases h; exact ⟨nodeA, rfl, by decide⟩) (by decide)⟩

/-! ### C9 -/

/-- A parent option that resolves in the store's layer index. -/
def parentResolvable (ls : layerStore) (parent : Option Digest) : Prop :=
  ∀ pc, parent = some pc → ∃ p, lookupA ls.layerMap pc = some p

def mountM : mountedLayer :=
  { name := "m", mountID := 300, initID := none, parent := none, references := [5] }

/-- A store holding one mount named "m" with a single live handle. -/
def storeM : layerStore :=
  { layerMap := [], mounts := [("m", mountM)], metaRecords := []
    mountRecords := [("m", ⟨some 300, none, none⟩)], driverStores := [300], nextID := 400 }

/-- `storeM` after the mount "m" has been fully released. -/
def storeM2 : layerStore :=
  { layerMap := [], mounts := [], metaRecords := [], mountRecords := [], driverStores := []
    nextID := 400 }

/-- C9: mount names are exclusive while held: `CreateRWLayer` with a
name already in the mounts index fails with `ErrMountNameConflict` and
changes nothing; once a `ReleaseRWLayer` has removed that mount, a
subsequent `CreateRWLayer` with the same name succeeds. -/
theorem C9_mount_name_exclusive (ls : layerStore) (name : String) (parent : Option Digest)
    (withInit : Bool) (f : RWFail) (dFail : List Nat) (rmF : Bool) (rw : RWLayer)
    (res : Except LayerErr (List Metadata)) :
    (∀ m, lookupA ls.mounts name = some m →
      ls.CreateRWLayer name parent withInit f = (.error .ErrMountNameConflict, ls)) ∧
    (∀ ls2 : layerStore, rw.name = name →
      layerStore.ReleaseRWLayer dFail rmF ls rw = (res, ls2) →
      lookupA ls2.mounts name = none →
      parentResolvable ls2 parent →
      ∃ hnd, (ls2.CreateRWLayer name parent withInit rwOK).1 = .ok hnd) := by
  constructor
  · intro m hm
    simp [layerStore.CreateRWLayer, hm]
  · intro ls2 _ _ hnone hpar
    cases parent with
    | none =>
      cases withInit
      · exact ⟨⟨name, ls2.nextID + 1⟩, by
          simp only [layerStore.CreateRWLayer, hnone, createRWCore, finishRW, rwOK,
            getReferenceRW, lookupA_cons_self, eq_self_iff_true, if_true, Bool.and_false, Bool.false_eq_true, if_false]⟩
      · exact ⟨⟨name, ls2.nextID + 2⟩, by
          simp only [layerStore.CreateRWLayer, hnone, createRWCore, finishRW, rwOK,
            getReferenceRW, lookupA_cons_self, eq_self_iff_true, if_true, Bool.and_false, Bool.false_eq_true, if_false]⟩
    | some pc =>
      obtain ⟨p, hp⟩ := hpar pc rfl
      cases withInit
      · refine ⟨⟨name, ls2.nextID + 1⟩, ?_⟩
        simp only [layerStore.CreateRWLayer, hnone, layerStore.get, hp, createRWCore,
          finishRW, rwOK, getReferenceRW, lookupA_cons_self, eq_self_iff_true, if_true,
          Bool.and_false, Bool.false_eq_true, if_false]
      · refine ⟨⟨name, ls2.nextID + 2⟩, ?_⟩
        simp only [layerStore.CreateRWLayer, hnone, layerStore.get, hp, createRWCore,
          finishRW, rwOK, getReferenceRW, lookupA_cons_self, eq_self_iff_true, if_true,
          Bool.and_false, Bool.false_eq_true, if_false]

/-- Witness for C9: a conflicting create on a held name, then a release
followed by a successful re-create of the same name. -/
theorem C9_mount_name_exclusive_witness :
    lookupA storeM.mounts "m" = some mountM ∧
    layerStore.ReleaseRWLayer [] false storeM ⟨"m", 5⟩ = (.ok [], storeM2) ∧
    lookupA storeM2.mounts "m" = none ∧
    (storeM.CreateRWLayer "m" none false rwOK = (.error .ErrMountNameConflict, storeM) ∧
      ∃ hnd, (storeM2.CreateRWLayer "m" none false rwOK).1 = .ok hnd) := by
  have hc := C9_mount_name_exclusive storeM "m" none false rwOK [] false ⟨"m", 5⟩ (.ok [])
  exact ⟨rfl, rfl, rfl,
    hc.1 mountM rfl,
    hc.2 storeM2 rfl rfl rfl (fun pc h => nomatch h)⟩

/-! ### C8 -/

/-- C8: for a handle whose chain ID is present in the layer index but
which is not registered in that node's reference set, `Release` returns
`ErrLayerNotRetained` and leaves the whole store (index, reference
counts, backing state) unchanged. -/
theorem C8_release_not_retained (dFail : List Nat) (ls : layerStore) (l : Layer)
    (node : roLayer)
    (hl : lookupA ls.layerMap l.chainID = some node)
    (hr : l.refID ∉ node.references) :
    ls.Release dFail l = (.error .ErrLayerNotRetained, ls) := by
  simp [layerStore.Release, hl, roLayer.hasReference, hr]

/-- Witness for C8: a handle with a foreign identity on an indexed
node. -/
theorem C8_release_not_retained_witness :
    lookupA storeA.layerMap dA = some nodeA ∧ 8 ∉ nodeA.references ∧
    storeA.Release [] ⟨dA, 8⟩ = (.error .ErrLayerNotRetained, storeA) :=
  ⟨by decide, by decide, C8_release_not_retained [] storeA ⟨dA, 8⟩ nodeA (by decide) (by decide)⟩

end Moby
